import Mathlib

/-!
Verification of the `LinkProvider` service
(`source/app/service-providers/links/index.ts`).

The provider keeps two insertion-ordered maps (`_fileLinkDatabase`,
`_idLinkDatabase`), updated by `report`/`remove`, read by
`retrieveInbound`/`retrieveOutbound`, and turned into a `LinkGraph`
(nodes, directed links, undirected connected components) by
`buildGraph`/`identifyComponents`.

JavaScript `Map`s are modelled as association lists in insertion order
(`set` overwrites in place, a fresh key is appended at the end), strings
stay strings, `throw` becomes `Except.error`, and the unbounded recursion
of `identifyComponents`' inner `visit` closure is given explicit fuel
(`graph.nodes.length + 1` is proven sufficient below, so the model agrees
with the source wherever the source terminates).  Vertices are addressed
by `id`; for graphs whose vertex ids are pairwise distinct - the only
graphs `buildGraph` constructs - this coincides with the JavaScript's
mutation of vertex objects in place.
-/

namespace Zettlr

/-- `const NONE_COMPONENT = 'Files'`. -/
def NONE_COMPONENT : String := "Files"

/-- The error message of the `throw new Error('Didnt find node')` statements
in `buildGraph`. -/
def didntFindNode : String := "Didnt find node"

/-- In the model, exceeding the recursion fuel of `visit`; unreachable for the
fuel `identifyComponents` passes (proven below). -/
def stackOverflow : String := "Maximum call stack size exceeded"

/-- In the model, dereferencing a vertex id with no vertex inside `visit`
(the source's `as GraphVertex` cast would make the recursive call crash on
`source.component`). -/
def undefinedVertex : String := "Cannot read properties of undefined"

/-- `GraphVertex` from `@dts/common/graph` as used by the provider. -/
structure GraphVertex where
  id : String
  label : String
  component : String
  isolate : Bool
deriving Repr, DecidableEq

/-- A directed arc `{ source, target, weight }` of the link graph. -/
structure GraphEdge where
  source : String
  target : String
  weight : Nat
deriving Repr, DecidableEq

/-- `LinkGraph`: nodes, directed links and the component name list. -/
structure LinkGraph where
  nodes : List GraphVertex
  links : List GraphEdge
  components : List String
deriving Repr, DecidableEq

/-- The provider's mutable state: `_fileLinkDatabase` (byPath) and
`_idLinkDatabase` (byID), both insertion-ordered maps from strings to
resolved link lists. -/
structure LinkState where
  fileLinkDatabase : List (String × List String)
  idLinkDatabase : List (String × List String)
deriving Repr, DecidableEq

/-- `Map.prototype.has`. -/
def mapHas (m : List (String × List String)) (k : String) : Bool :=
  m.any (fun e => e.1 == k)

/-- `Map.prototype.get` (`none` for a missing key). -/
def mapGet (m : List (String × List String)) (k : String) : Option (List String) :=
  (m.find? (fun e => e.1 == k)).map (fun e => e.2)

/-- `Map.prototype.set`: overwrite in place, or append a fresh key. -/
def mapSet (m : List (String × List String)) (k : String) (v : List String) :
    List (String × List String) :=
  if mapHas m k then m.map (fun e => if e.1 == k then (k, v) else e)
  else m ++ [(k, v)]

/-- `Map.prototype.delete`. -/
def mapDelete (m : List (String × List String)) (k : String) :
    List (String × List String) :=
  m.filter (fun e => e.1 != k)

/-- The resolution loop of `report`: each raw link is passed to
`this._app.fsal.findExact`; hits push `found.path`, misses are skipped.
The resolver is a parameter of the model. -/
def resolveLinks (findExact : String → Option String) :
    List String → List String → List String
  | resolved, [] => resolved
  | resolved, link :: rest =>
    match findExact link with
    | some found => resolveLinks findExact (resolved ++ [found]) rest
    | none => resolveLinks findExact resolved rest

/-- `report (sourcePath, outboundLinks, sourceID?)`. -/
def report (findExact : String → Option String) (st : LinkState)
    (sourcePath : String) (outboundLinks : List String)
    (sourceID : Option String) : LinkState :=
  let sid := if sourceID = some ("") then none else sourceID
  let resolved := resolveLinks findExact [] outboundLinks
  { fileLinkDatabase := mapSet st.fileLinkDatabase sourcePath resolved
    idLinkDatabase :=
      match sid with
      | some i => mapSet st.idLinkDatabase i resolved
      | none => st.idLinkDatabase }

/-- `remove (sourcePath, sourceID?)`. -/
def remove (st : LinkState) (sourcePath : String) (sourceID : Option String) :
    LinkState :=
  let sid := if sourceID = some ("") then none else sourceID
  { fileLinkDatabase :=
      if mapHas st.fileLinkDatabase sourcePath then
        mapDelete st.fileLinkDatabase sourcePath
      else st.fileLinkDatabase
    idLinkDatabase :=
      match sid with
      | some i =>
        if mapHas st.idLinkDatabase i then mapDelete st.idLinkDatabase i
        else st.idLinkDatabase
      | none => st.idLinkDatabase }

/-- `retrieveInbound`: every byPath key whose outbound list contains the
queried path, in map order. -/
def retrieveInbound (st : LinkState) (sourceFilePath : String) : List String :=
  (st.fileLinkDatabase.filter (fun e => e.2.contains sourceFilePath)).map
    (fun e => e.1)

/-- `retrieveOutbound`: `this._fileLinkDatabase.get(sourceFilePath) ?? []`. -/
def retrieveOutbound (st : LinkState) (sourceFilePath : String) : List String :=
  (mapGet st.fileLinkDatabase sourceFilePath).getD []

/-- `path.basename` for POSIX paths: the last slash-separated segment. -/
def basename (p : String) : String :=
  ((p.splitOn ("/")).getLast?).getD p

/-- The vertex `buildGraph` pushes for a byPath key. -/
def newVertex (file : String) : GraphVertex :=
  { id := file, label := basename file, component := NONE_COMPONENT
    isolate := true }

/-- The first `for` loop of `buildGraph`: one vertex per previously unseen
byPath key, and one arc per outbound entry. -/
def buildNodesLinks :
    List (String × List String) → List GraphVertex × List GraphEdge →
    List GraphVertex × List GraphEdge
  | [], acc => acc
  | (file, outbound) :: rest, (nodes, links) =>
    let nodes' :=
      if (nodes.find? (fun v => v.id == file)).isSome then nodes
      else nodes ++ [newVertex file]
    buildNodesLinks rest
      (nodes', links ++ outbound.map
        (fun target => { source := file, target := target, weight := 1 }))

/-- `new Set(xs)` iterated with `for..of`: first occurrences, in order. -/
def insertionDedup : List String → List String → List String
  | acc, [] => acc
  | acc, x :: xs =>
    if x ∈ acc then insertionDedup acc xs else insertionDedup (acc ++ [x]) xs

/-- Replace the first list entry with the given vertex id (the JavaScript
mutates the object returned by `nodes.find`). -/
def updateFirst (f : GraphVertex → GraphVertex) :
    List GraphVertex → String → List GraphVertex
  | [], _ => []
  | v :: rest, nid =>
    if v.id == nid then f v :: rest else v :: updateFirst f rest nid

/-- The two isolate loops of `buildGraph`: for each id, find the vertex
(`throw new Error('Didnt find node')` on a miss) and clear its isolate
flag. -/
def markConnected : List GraphVertex → List String →
    Except String (List GraphVertex)
  | ns, [] => Except.ok ns
  | ns, nid :: rest =>
    if (ns.find? (fun v => v.id == nid)).isSome then
      markConnected (updateFirst (fun v => { v with isolate := false }) ns nid)
        rest
    else Except.error didntFindNode

/-- The `for (const target of allTargets) visit(target, component)` loop. -/
def visitTargets
    (f : List GraphVertex → List String → String →
      Except String (List GraphVertex × List String)) :
    List String → List GraphVertex → List String →
    Except String (List GraphVertex × List String)
  | [], nodes, components => Except.ok (nodes, components)
  | t :: ts, nodes, components =>
    match f nodes components t with
    | Except.error e => Except.error e
    | Except.ok (nodes', components') => visitTargets f ts nodes' components'

/-- The recursive `visit` closure of `identifyComponents`, with explicit
fuel for the recursion depth.  The guard, the fresh component name
`Component ${components.length + 1}`, the in-place component assignment and
the undirected neighbour enumeration mirror the source line by line. -/
def visit (links : List GraphEdge) :
    Nat → List GraphVertex → List String → String → Option String →
    Except String (List GraphVertex × List String)
  | 0, _, _, _, _ => Except.error stackOverflow
  | fuel + 1, nodes, components, sourceId, component =>
    match nodes.find? (fun v => v.id == sourceId) with
    | none => Except.error undefinedVertex
    | some source =>
      if source.component != NONE_COMPONENT
          || some source.component == component then
        Except.ok (nodes, components)
      else
        let comp :=
          match component with
          | none => "Component " ++ toString (components.length + 1)
          | some c => c
        let components' :=
          match component with
          | none => components ++ [comp]
          | some _ => components
        let nodes' :=
          updateFirst (fun v => { v with component := comp }) nodes sourceId
        let allTargets :=
          ((links.filter
            (fun l => l.source == sourceId || l.target == sourceId)).map
            (fun l => if l.target == sourceId then l.source else l.target))
        visitTargets (fun ns cs t => visit links fuel ns cs t (some comp))
          allTargets nodes' components'

/-- `graph.nodes.forEach((node) => visit(node))`. -/
def visitAll (links : List GraphEdge) (fuel : Nat) :
    List String → List GraphVertex → List String →
    Except String (List GraphVertex × List String)
  | [], ns, comps => Except.ok (ns, comps)
  | nid :: rest, ns, comps =>
    match visit links fuel ns comps nid none with
    | Except.error e => Except.error e
    | Except.ok (ns', comps') => visitAll links fuel rest ns' comps'

/-- `identifyComponents`: label every node, returning the updated node list
together with the component name list. -/
def identifyComponents (graph : LinkGraph) :
    Except String (List GraphVertex × List String) :=
  visitAll graph.links (graph.nodes.length + 1)
    (graph.nodes.map (fun v => v.id)) graph.nodes []

/-- `buildGraph`: build nodes and arcs from the byPath map, clear isolate
flags for every distinct arc endpoint (throwing on an endpoint with no
vertex), then label components. -/
def buildGraph (st : LinkState) : Except String LinkGraph := do
  let (nodes0, links) := buildNodesLinks st.fileLinkDatabase ([], [])
  let sources := insertionDedup [] (links.map (fun l => l.source))
  let targets := insertionDedup [] (links.map (fun l => l.target))
  let nodes1 ← markConnected nodes0 sources
  let nodes2 ← markConnected nodes1 targets
  let (nodes3, components) ←
    identifyComponents { nodes := nodes2, links := links, components := [] }
  Except.ok { nodes := nodes3, links := links, components := components }

/-- The `buildGraph` method as a state transformer: the body reads
`_fileLinkDatabase` but contains no assignment to either database field, so
the state it leaves behind is the state it was called in. -/
def buildGraphCall (st : LinkState) : Except String LinkGraph × LinkState :=
  (buildGraph st, st)

/-- The `retrieveInbound` method as a state transformer (no assignment to
either database field in the body). -/
def retrieveInboundCall (st : LinkState) (p : String) :
    List String × LinkState :=
  (retrieveInbound st p, st)

/-- The `retrieveOutbound` method as a state transformer (no assignment to
either database field in the body). -/
def retrieveOutboundCall (st : LinkState) (p : String) :
    List String × LinkState :=
  (retrieveOutbound st p, st)

/-- Two ids are adjacent when some arc connects them in either direction. -/
def adj (links : List GraphEdge) (a b : String) : Prop :=
  ∃ e ∈ links, (e.source = a ∧ e.target = b) ∨ (e.source = b ∧ e.target = a)

/-- Undirected reachability along the arcs. -/
inductive Reach (links : List GraphEdge) : String → String → Prop
  | refl (a : String) : Reach links a a
  | tail {a b c : String} : Reach links a b → adj links b c → Reach links a c

/-- First vertex with a given id. -/
def vfind (ns : List GraphVertex) (nid : String) : Option GraphVertex :=
  ns.find? (fun v => v.id == nid)

/-- Component of the first vertex with a given id. -/
def vcomp (ns : List GraphVertex) (nid : String) : Option String :=
  (vfind ns nid).map (fun v => v.component)

/-- Isolate flag of the first vertex with a given id. -/
def viso (ns : List GraphVertex) (nid : String) : Option Bool :=
  (vfind ns nid).map (fun v => v.isolate)

/-- Vertices that still carry the sentinel component. -/
def countNone (ns : List GraphVertex) : Nat :=
  (ns.filter (fun v => v.component == NONE_COMPONENT)).length

/-- Numeric value of a decimal digit character. -/
def charVal (c : Char) : Nat := c.toNat - 48

/-- Value of a most-significant-first decimal digit list. -/
def decodeDigits (l : List Char) : Nat :=
  l.foldl (fun a c => a * 10 + charVal c) 0

/-- The component name `Component ${k}` generated by `identifyComponents`. -/
def componentName (k : Nat) : String :=
  "Component " ++ toString k

/-- The two node lists agree everywhere except possibly in `component`. -/
def SameShape (ns ns' : List GraphVertex) : Prop :=
  List.Forall₂
    (fun u v => u.id = v.id ∧ u.label = v.label ∧ u.isolate = v.isolate)
    ns ns'

/-- `markConnected` keeps ids, labels and components, flipping only
isolate flags. -/
def SameCore (ns ns' : List GraphVertex) : Prop :=
  List.Forall₂
    (fun u v => u.id = v.id ∧ u.label = v.label ∧ u.component = v.component)
    ns ns'

/-- Undirected neighbour list of a vertex, exactly as `visit` computes it. -/
def allTargets (links : List GraphEdge) (sourceId : String) : List String :=
  (links.filter (fun l => l.source == sourceId || l.target == sourceId)).map
    (fun l => if l.target == sourceId then l.source else l.target)

/-- Closure: every arc endpoint names a vertex. -/
def Closed (links : List GraphEdge) (ns : List GraphVertex) : Prop :=
  ∀ e ∈ links, e.source ∈ ns.map (fun v => v.id)
    ∧ e.target ∈ ns.map (fun v => v.id)

/-- What one complete `visit` pass with component `c` does to the node
list: it only turns sentinel components into `c`, and every node it
touches ends with all its neighbours labelled. -/
structure StepSound (links : List GraphEdge) (c : String)
    (ns ns' : List GraphVertex) : Prop where
  shape : SameShape ns ns'
  count_le : countNone ns' ≤ countNone ns
  mono : ∀ m, vcomp ns m ≠ some NONE_COMPONENT → vcomp ns' m = vcomp ns m
  writes : ∀ m, vcomp ns' m ≠ vcomp ns m →
    vcomp ns m = some NONE_COMPONENT ∧ vcomp ns' m = some c
  sat : ∀ m, vcomp ns' m ≠ vcomp ns m →
    ∀ t, adj links m t → vcomp ns' t ≠ some NONE_COMPONENT

/-- Soundness statement for an inner `visit` call (`component` given):
the call succeeds, behaves like one `StepSound` pass, leaves the visited
vertex labelled, and labels only vertices reachable from it. -/
def VisitSpec (links : List GraphEdge) (fuel : Nat) : Prop :=
  ∀ (ns : List GraphVertex) (comps : List String) (nid c : String),
    c ≠ NONE_COMPONENT →
    countNone ns < fuel →
    Closed links ns →
    nid ∈ ns.map (fun v => v.id) →
    ∃ ns', visit links fuel ns comps nid (some c) = Except.ok (ns', comps)
      ∧ StepSound links c ns ns'
      ∧ vcomp ns' nid ≠ some NONE_COMPONENT
      ∧ (∀ m, vcomp ns' m ≠ vcomp ns m → Reach links nid m)

/-- Invariant carried through the `graph.nodes.forEach` loop of
`identifyComponents`. -/
structure LoopInv (links : List GraphEdge) (ns0 ns : List GraphVertex)
    (comps : List String) : Prop where
  shape : SameShape ns0 ns
  comps_canonical : ∃ k, comps = (List.range k).map
    (fun i => componentName (i + 1))
  values : ∀ m ctag, vcomp ns m = some ctag →
    ctag = NONE_COMPONENT ∨ ctag ∈ comps
  connected : ∀ m n ctag, vcomp ns m = some ctag →
    vcomp ns n = some ctag → ctag ≠ NONE_COMPONENT → Reach links m n
  sat : ∀ m ctag, vcomp ns m = some ctag → ctag ≠ NONE_COMPONENT →
    ∀ t, adj links m t → vcomp ns t ≠ some NONE_COMPONENT
  edges : ∀ a b, adj links a b → ∀ ca cb, vcomp ns a = some ca →
    vcomp ns b = some cb → ca ≠ NONE_COMPONENT → cb ≠ NONE_COMPONENT →
    ca = cb

/-- The condition under which `buildGraph` succeeds: every resolved target
is itself a byPath key. -/
def AllTargetsKnown (st : LinkState) : Prop :=
  ∀ p ∈ st.fileLinkDatabase, ∀ t ∈ p.2,
    mapHas st.fileLinkDatabase t = true

/-- A resolver recognising the four markdown files of the spec scenarios. -/
def exampleResolver : String → Option String := fun s =>
  if s = "a.md" ∨ s = "b.md" ∨ s = "c.md" ∨ s = "d.md" then some s
  else none

/-- The provider's state right after construction. -/
def emptyState : LinkState :=
  { fileLinkDatabase := [], idLinkDatabase := [] }

/-- Scenario D of the spec, exactly as written:
`report("a.md", ["b.md"])` then `report("c.md", ["b.md"])`. -/
def scenarioDState : LinkState :=
  report exampleResolver
    (report exampleResolver emptyState ("a.md") ([("b.md")]) none)
    ("c.md") ([("b.md")]) none

/-- Scenario D with the bridge file itself reported, so that `b.md` has a
vertex. -/
def scenarioDFixedState : LinkState :=
  report exampleResolver scenarioDState ("b.md") ([]) none

/-- One file with no outbound links: an isolate. -/
def isolateState : LinkState :=
  report exampleResolver scenarioDFixedState ("d.md") ([]) none

/-! ### Association-list map lemmas -/

theorem resolveLinks_eq_filterMap (f : String → Option String) :
    ∀ (l acc : List String), resolveLinks f acc l = acc ++ l.filterMap f := by
  intro l
  induction l with
  | nil => intro acc; simp [resolveLinks]
  | cons x xs ih =>
    intro acc
    cases h : f x with
    | some y => simp [resolveLinks, h, ih]
    | none => simp [resolveLinks, h, ih]

theorem mapHas_cons (e : String × List String)
    (m : List (String × List String)) (k : String) :
    mapHas (e :: m) k = (e.1 == k || mapHas m k) := by
  simp [mapHas]

theorem mapHas_eq_false_iff {m : List (String × List String)} {k : String} :
    mapHas m k = false ↔ ∀ e ∈ m, e.1 ≠ k := by
  simp [mapHas, List.any_eq_false]

theorem find?_eq_none_of_not_has {m : List (String × List String)}
    {k : String} (h : mapHas m k = false) :
    m.find? (fun e => e.1 == k) = none := by
  rw [List.find?_eq_none]
  intro e he hbeq
  exact mapHas_eq_false_iff.mp h e he (by simpa using hbeq)

theorem mapGet_eq_none_of_not_has {m : List (String × List String)}
    {k : String} (h : mapHas m k = false) : mapGet m k = none := by
  simp [mapGet, find?_eq_none_of_not_has h]

theorem find?_map_set_self {k : String} {v : List String} :
    ∀ {m : List (String × List String)}, mapHas m k = true →
    (m.map (fun e => if e.1 == k then (k, v) else e)).find?
      (fun e => e.1 == k) = some (k, v) := by
  intro m
  induction m with
  | nil => intro h; simp [mapHas] at h
  | cons e rest ih =>
    intro h
    by_cases he : e.1 = k
    · rw [List.map_cons, if_pos (by simp [he])]
      exact List.find?_cons_of_pos _ (by simp)
    · rw [List.map_cons, if_neg (by simp [he]),
        List.find?_cons_of_neg _ (by simp [he])]
      rw [mapHas_cons] at h
      have h2 : mapHas rest k = true := by
        rcases Bool.or_eq_true_iff.mp h with h1 | h1
        · exact absurd (by simpa using h1) he
        · exact h1
      exact ih h2

theorem find?_map_set_ne {k k' : String} {v : List String} (hne : k' ≠ k) :
    ∀ (m : List (String × List String)),
    (m.map (fun e => if e.1 == k then (k, v) else e)).find?
      (fun e => e.1 == k') = m.find? (fun e => e.1 == k') := by
  have hkk : ¬ k = k' := Ne.symm hne
  intro m
  induction m with
  | nil => rfl
  | cons e rest ih =>
    by_cases he : e.1 = k
    · rw [List.map_cons, if_pos (by simp [he]),
        List.find?_cons_of_neg _ (by simpa using hkk),
        List.find?_cons_of_neg _ (by simp [he]; exact hkk), ih]
    · rw [List.map_cons, if_neg (by simp [he])]
      by_cases he' : e.1 = k'
      · rw [List.find?_cons_of_pos _ (by simp [he']),
          List.find?_cons_of_pos _ (by simp [he'])]
      · rw [List.find?_cons_of_neg _ (by simp [he']),
          List.find?_cons_of_neg _ (by simp [he']), ih]

theorem find?_append_right_none {p : String × List String → Bool}
    {l1 l2 : List (String × List String)} (h : l1.find? p = none) :
    (l1 ++ l2).find? p = l2.find? p := by
  induction l1 with
  | nil => rfl
  | cons e rest ih =>
    rw [List.find?_eq_none] at h
    rw [List.cons_append, List.find?_cons_of_neg _ (h e (by simp))]
    exact ih (List.find?_eq_none.mpr (fun x hx => h x (by simp [hx])))

theorem find?_append_some {p : String × List String → Bool}
    {l2 : List (String × List String)} :
    ∀ {l1 : List (String × List String)} {a : String × List String},
    l1.find? p = some a → (l1 ++ l2).find? p = some a := by
  intro l1
  induction l1 with
  | nil => intro a h; simp at h
  | cons e rest ih =>
    intro a h
    by_cases hp : p e = true
    · rw [List.find?_cons_of_pos _ hp] at h
      rw [List.cons_append, List.find?_cons_of_pos _ hp, h]
    · rw [List.find?_cons_of_neg _ hp] at h
      rw [List.cons_append, List.find?_cons_of_neg _ hp]
      exact ih h

theorem mapHas_map_set_self {m : List (String × List String)} {k : String}
    {v : List String} (h : mapHas m k = true) :
    mapHas (m.map (fun e => if e.1 == k then (k, v) else e)) k = true := by
  have hf := find?_map_set_self (v := v) h
  exact List.any_eq_true.mpr
    ⟨(k, v), List.mem_of_find?_eq_some hf, by simp⟩

theorem mapHas_mapSet_self (m : List (String × List String)) (k : String)
    (v : List String) : mapHas (mapSet m k v) k = true := by
  unfold mapSet
  by_cases h : mapHas m k
  · rw [if_pos h]
    exact mapHas_map_set_self h
  · rw [if_neg h]
    simp [mapHas, List.any_append]

theorem mapGet_mapSet_self (m : List (String × List String)) (k : String)
    (v : List String) : mapGet (mapSet m k v) k = some v := by
  unfold mapSet mapGet
  by_cases h : mapHas m k
  · rw [if_pos h, find?_map_set_self h]
    rfl
  · rw [if_neg h]
    have h' : mapHas m k = false := by simpa using h
    rw [find?_append_right_none (find?_eq_none_of_not_has h'),
      List.find?_cons_of_pos _ (by simp)]
    rfl

theorem mapGet_mapSet_ne (m : List (String × List String)) {k k' : String}
    (v : List String) (hne : k' ≠ k) :
    mapGet (mapSet m k v) k' = mapGet m k' := by
  unfold mapSet mapGet
  by_cases h : mapHas m k
  · rw [if_pos h, find?_map_set_ne hne]
  · rw [if_neg h]
    cases hf : m.find? (fun e => e.1 == k') with
    | some e => rw [find?_append_some hf]
    | none =>
      rw [find?_append_right_none hf,
        List.find?_cons_of_neg _ (by simpa using Ne.symm hne)]
      rfl

theorem mapSet_idem (m : List (String × List String)) (k : String)
    (v : List String) : mapSet (mapSet m k v) k v = mapSet m k v := by
  by_cases h : mapHas m k
  · simp only [mapSet, if_pos h, if_pos (mapHas_map_set_self h),
      List.map_map]
    apply List.map_congr_left
    intro e _
    by_cases he : e.1 = k <;> simp [Function.comp, he]
  · have h2 : mapHas (m ++ [(k, v)]) k = true := by
      simp [mapHas, List.any_append]
    simp only [mapSet, if_neg h, if_pos h2, List.map_append]
    have h1 : m.map (fun e => if e.1 == k then (k, v) else e) = m := by
      have h' : mapHas m k = false := by simpa using h
      have := List.map_congr_left
        (f := fun (e : String × List String) =>
          if e.1 == k then (k, v) else e) (g := id) (l := m)
        (fun e he => by simp [mapHas_eq_false_iff.mp h' e he])
      simpa using this
    rw [h1]
    simp

/-! ### Decimal numerals: `Nat.repr` is injective

Component names are `Component ${components.length + 1}`; distinctness of
the names handed out by `identifyComponents` reduces to injectivity of the
decimal numeral. -/

theorem charVal_digitChar {d : Nat} (h : d < 10) :
    charVal (Nat.digitChar d) = d := by
  interval_cases d <;> rfl

theorem toDigitsCore_shift :
    ∀ (fuel n : Nat) (ds : List Char),
    Nat.toDigitsCore 10 fuel n ds = Nat.toDigitsCore 10 fuel n [] ++ ds := by
  intro fuel
  induction fuel with
  | zero => intro n ds; simp [Nat.toDigitsCore]
  | succ fuel ih =>
    intro n ds
    simp only [Nat.toDigitsCore]
    by_cases h : n / 10 = 0
    · simp [h]
    · simp only [h, if_false]
      rw [ih (n / 10) (Nat.digitChar (n % 10) :: ds),
        ih (n / 10) [Nat.digitChar (n % 10)], List.append_assoc]
      rfl

theorem toDigitsCore_fuel_irrelevant :
    ∀ (f1 f2 n : Nat) (ds : List Char), n < f1 → n < f2 →
    Nat.toDigitsCore 10 f1 n ds = Nat.toDigitsCore 10 f2 n ds := by
  intro f1
  induction f1 with
  | zero => intro f2 n ds h1; omega
  | succ f1 ih =>
    intro f2 n ds h1 h2
    cases f2 with
    | zero => omega
    | succ f2 =>
      simp only [Nat.toDigitsCore]
      by_cases h : n / 10 = 0
      · simp [h]
      · simp only [h, if_false]
        have hn : 0 < n := by
          rcases Nat.eq_zero_or_pos n with h0 | h0
          · exact absurd (by simp [h0]) h
          · exact h0
        have hlt : n / 10 < n := Nat.div_lt_self hn (by omega)
        exact ih f2 (n / 10) _ (by omega) (by omega)

theorem decodeDigits_append_singleton (l : List Char) (c : Char) :
    decodeDigits (l ++ [c]) = decodeDigits l * 10 + charVal c := by
  simp [decodeDigits, List.foldl_append]

theorem decodeDigits_toDigits (n : Nat) :
    decodeDigits (Nat.toDigits 10 n) = n := by
  induction n using Nat.strong_induction_on with
  | _ n ih =>
    show decodeDigits (Nat.toDigitsCore 10 (n + 1) n []) = n
    simp only [Nat.toDigitsCore]
    by_cases h : n / 10 = 0
    · have hlt : n < 10 := by
        have := Nat.div_add_mod n 10
        have hm : n % 10 < 10 := Nat.mod_lt _ (by omega)
        omega
      simp only [h, if_pos]
      show decodeDigits [Nat.digitChar (n % 10)] = n
      rw [Nat.mod_eq_of_lt hlt]
      simp [decodeDigits, charVal_digitChar hlt]
    · simp only [h, if_false]
      have hn : 0 < n := by
        rcases Nat.eq_zero_or_pos n with h0 | h0
        · exact absurd (by simp [h0]) h
        · exact h0
      have hlt : n / 10 < n := Nat.div_lt_self hn (by omega)
      rw [toDigitsCore_shift,
        toDigitsCore_fuel_irrelevant n (n / 10 + 1) (n / 10) [] (by omega)
          (by omega),
        decodeDigits_append_singleton]
      have hrec : decodeDigits (Nat.toDigits 10 (n / 10)) = n / 10 :=
        ih (n / 10) hlt
      show decodeDigits (Nat.toDigits 10 (n / 10)) * 10
          + charVal (Nat.digitChar (n % 10)) = n
      rw [hrec, charVal_digitChar (Nat.mod_lt n (by omega) : n % 10 < 10)]
      have := Nat.div_add_mod n 10
      omega

theorem toDigits_injective {a b : Nat}
    (h : Nat.toDigits 10 a = Nat.toDigits 10 b) : a = b := by
  have := congrArg decodeDigits h
  rwa [decodeDigits_toDigits, decodeDigits_toDigits] at this

theorem componentName_injective {a b : Nat}
    (h : componentName a = componentName b) : a = b := by
  have hdata := congrArg String.data h
  simp only [componentName, toString] at hdata
  have h2 : (String.mk ("Component ".data ++ Nat.toDigits 10 a)).data
      = (String.mk ("Component ".data ++ Nat.toDigits 10 b)).data := hdata
  simp only [String.data] at h2
  exact toDigits_injective (List.append_cancel_left h2)

theorem componentName_ne_none (k : Nat) : componentName k ≠ NONE_COMPONENT := by
  intro h
  have hdata := congrArg String.data h
  have h2 : "Component ".data ++ Nat.toDigits 10 k = "Files".data := hdata
  have hlen := congrArg List.length h2
  rw [List.length_append] at hlen
  have ha : ("Component ".data).length = 10 := rfl
  have hb : ("Files".data).length = 5 := rfl
  omega

theorem mapGet_mapDelete_self (m : List (String × List String))
    (k : String) : mapGet (mapDelete m k) k = none := by
  have h : (m.filter (fun e => e.1 != k)).find? (fun e => e.1 == k)
      = none := by
    rw [List.find?_eq_none]
    intro e he hbeq
    have h2 := (List.mem_filter.mp he).2
    simp only [bne_iff_ne, ne_eq] at h2
    exact h2 (by simpa using hbeq)
  simp [mapGet, mapDelete, h]

/-! ### Vertex-list lemmas -/

theorem sameShape_refl (ns : List GraphVertex) : SameShape ns ns := by
  induction ns with
  | nil => exact List.Forall₂.nil
  | cons v rest ih => exact List.Forall₂.cons ⟨rfl, rfl, rfl⟩ ih

theorem sameShape_trans {a b c : List GraphVertex} (h1 : SameShape a b)
    (h2 : SameShape b c) : SameShape a c := by
  induction h1 generalizing c with
  | nil => cases h2; exact List.Forall₂.nil
  | cons hx hrest ih =>
    cases h2 with
    | cons hy hrest' =>
      exact List.Forall₂.cons
        ⟨hx.1.trans hy.1, hx.2.1.trans hy.2.1, hx.2.2.trans hy.2.2⟩
        (ih hrest')

theorem sameShape_ids {ns ns' : List GraphVertex} (h : SameShape ns ns') :
    ns.map (fun v => v.id) = ns'.map (fun v => v.id) := by
  induction h with
  | nil => rfl
  | cons hx hrest ih => simp [hx.1, ih]

theorem sameShape_length {ns ns' : List GraphVertex} (h : SameShape ns ns') :
    ns.length = ns'.length := by
  induction h with
  | nil => rfl
  | cons hx hrest ih => simp [ih]

theorem sameShape_viso {ns ns' : List GraphVertex} (h : SameShape ns ns') :
    ∀ m, viso ns' m = viso ns m := by
  intro m
  induction h with
  | nil => rfl
  | cons hx hrest ih =>
    rename_i u v _ _
    by_cases hm : u.id = m
    · simp [viso, vfind, List.find?_cons_of_pos, hm, hx.1 ▸ hm, hx.2.2,
        ← hx.1]
    · have hm' : ¬ v.id = m := fun hh => hm (hx.1 ▸ hh)
      simp only [viso, vfind] at ih ⊢
      rw [List.find?_cons_of_neg _ (by simpa using hm'),
        List.find?_cons_of_neg _ (by simpa using hm)]
      exact ih

theorem sameShape_updateFirst {f : GraphVertex → GraphVertex}
    (hf : ∀ v, (f v).id = v.id ∧ (f v).label = v.label
      ∧ (f v).isolate = v.isolate) :
    ∀ (ns : List GraphVertex) (nid : String),
    SameShape ns (updateFirst f ns nid) := by
  intro ns
  induction ns with
  | nil => intro nid; exact List.Forall₂.nil
  | cons v rest ih =>
    intro nid
    by_cases hv : v.id = nid
    · simp only [updateFirst, hv, beq_self_eq_true, if_true]
      exact List.Forall₂.cons
        ⟨(hf v).1.symm, (hf v).2.1.symm, (hf v).2.2.symm⟩
        (sameShape_refl rest)
    · simp only [updateFirst, beq_iff_eq, hv, if_false]
      exact List.Forall₂.cons ⟨rfl, rfl, rfl⟩ (ih nid)

theorem vfind_updateFirst_self {f : GraphVertex → GraphVertex}
    (hf : ∀ v, (f v).id = v.id) :
    ∀ (ns : List GraphVertex) (nid : String),
    vfind (updateFirst f ns nid) nid = (vfind ns nid).map f := by
  intro ns
  induction ns with
  | nil => intro nid; rfl
  | cons v rest ih =>
    intro nid
    by_cases hv : v.id = nid
    · simp only [updateFirst, hv, beq_self_eq_true, if_true, vfind]
      rw [List.find?_cons_of_pos _ (by simp [hf v, hv]),
        List.find?_cons_of_pos _ (by simp [hv])]
      rfl
    · simp only [updateFirst, beq_iff_eq, hv, if_false, vfind]
      rw [List.find?_cons_of_neg _ (by simp [hv]),
        List.find?_cons_of_neg _ (by simp [hv])]
      exact ih nid

theorem vfind_updateFirst_ne {f : GraphVertex → GraphVertex}
    (hf : ∀ v, (f v).id = v.id) {m nid : String} (hne : m ≠ nid) :
    ∀ (ns : List GraphVertex),
    vfind (updateFirst f ns nid) m = vfind ns m := by
  intro ns
  induction ns with
  | nil => rfl
  | cons v rest ih =>
    by_cases hv : v.id = nid
    · simp only [updateFirst, hv, beq_self_eq_true, if_true, vfind]
      rw [List.find?_cons_of_neg _ (by simp [hf v, hv]; exact Ne.symm hne),
        List.find?_cons_of_neg _ (by simp [hv]; exact Ne.symm hne)]
    · simp only [updateFirst, beq_iff_eq, hv, if_false, vfind]
      by_cases hm : v.id = m
      · rw [List.find?_cons_of_pos _ (by simp [hm]),
          List.find?_cons_of_pos _ (by simp [hm])]
      · rw [List.find?_cons_of_neg _ (by simp [hm]),
          List.find?_cons_of_neg _ (by simp [hm])]
        exact ih

theorem mem_ids_iff_vfind_isSome {ns : List GraphVertex} {nid : String} :
    nid ∈ ns.map (fun v => v.id) ↔ (vfind ns nid).isSome := by
  induction ns with
  | nil => simp [vfind]
  | cons v rest ih =>
    by_cases hv : v.id = nid
    · simp [vfind, List.find?_cons_of_pos, hv]
    · simp only [List.map_cons, List.mem_cons, vfind]
      rw [List.find?_cons_of_neg _ (by simp [hv])]
      simp only [vfind] at ih
      constructor
      · intro h
        rcases h with h | h
        · exact absurd h.symm hv
        · exact ih.mp h
      · intro h
        exact Or.inr (ih.mpr h)

theorem countNone_cons (v : GraphVertex) (rest : List GraphVertex) :
    countNone (v :: rest)
      = (if v.component = NONE_COMPONENT then 1 else 0) + countNone rest := by
  simp only [countNone, List.filter_cons]
  by_cases hv : v.component = NONE_COMPONENT
  · simp only [hv, beq_self_eq_true, if_true, List.length_cons]
    omega
  · simp [hv]

theorem countNone_setComp_lt {ns : List GraphVertex} {nid c : String}
    (hc : c ≠ NONE_COMPONENT)
    (h : vcomp ns nid = some NONE_COMPONENT) :
    countNone (updateFirst (fun v => { v with component := c }) ns nid)
      < countNone ns := by
  induction ns with
  | nil => simp [vcomp, vfind] at h
  | cons v rest ih =>
    by_cases hv : v.id = nid
    · simp only [vcomp, vfind] at h
      rw [List.find?_cons_of_pos _ (by simp [hv])] at h
      have hvc : v.component = NONE_COMPONENT := by
        simpa using h
      simp only [updateFirst, hv, beq_self_eq_true, if_true]
      rw [countNone_cons, countNone_cons]
      simp [hvc, hc]
    · simp only [vcomp, vfind] at h
      rw [List.find?_cons_of_neg _ (by simp [hv])] at h
      simp only [updateFirst, beq_iff_eq, hv, if_false]
      rw [countNone_cons, countNone_cons]
      have := ih h
      omega

theorem countNone_le_length (ns : List GraphVertex) :
    countNone ns ≤ ns.length := by
  simpa [countNone] using List.length_filter_le _ ns

/-! ### Reachability lemmas -/

theorem adj_symm {links : List GraphEdge} {a b : String}
    (h : adj links a b) : adj links b a := by
  rcases h with ⟨e, he, h1 | h2⟩
  · exact ⟨e, he, Or.inr h1⟩
  · exact ⟨e, he, Or.inl h2⟩

theorem reach_trans {links : List GraphEdge} {a b c : String}
    (h1 : Reach links a b) (h2 : Reach links b c) : Reach links a c := by
  induction h2 with
  | refl => exact h1
  | tail _ hadj ih => exact Reach.tail ih hadj

theorem reach_of_adj {links : List GraphEdge} {a b : String}
    (h : adj links a b) : Reach links a b :=
  Reach.tail (Reach.refl a) h

theorem reach_symm {links : List GraphEdge} {a b : String}
    (h : Reach links a b) : Reach links b a := by
  induction h with
  | refl => exact Reach.refl _
  | tail _ hadj ih =>
    exact reach_trans (reach_of_adj (adj_symm hadj)) ih

/-- Endpoints of an adjacency are arc endpoints. -/
theorem adj_endpoints {links : List GraphEdge} {a b : String}
    (h : adj links a b) :
    ∃ e ∈ links, (e.source = a ∨ e.target = a) ∧ (e.source = b ∨ e.target = b) := by
  rcases h with ⟨e, he, h1 | h2⟩
  · exact ⟨e, he, Or.inl h1.1, Or.inr h1.2⟩
  · exact ⟨e, he, Or.inr h2.2, Or.inl h2.1⟩

/-! ### The `allTargets` neighbour enumeration of `visit` -/

theorem adj_of_mem_allTargets {links : List GraphEdge} {sourceId t : String}
    (h : t ∈ allTargets links sourceId) : adj links sourceId t := by
  rcases List.mem_map.mp h with ⟨l, hl, hf⟩
  have hl2 := List.mem_filter.mp hl
  by_cases ht : l.target = sourceId
  · rw [if_pos (by simpa using ht)] at hf
    exact ⟨l, hl2.1, Or.inr ⟨hf, ht⟩⟩
  · rw [if_neg (by simpa using ht)] at hf
    have hs : l.source = sourceId := by
      rcases Bool.or_eq_true_iff.mp hl2.2 with h1 | h1
      · simpa using h1
      · exact absurd (by simpa using h1) ht
    exact ⟨l, hl2.1, Or.inl ⟨hs, hf⟩⟩

theorem mem_allTargets_of_adj {links : List GraphEdge} {sourceId t : String}
    (h : adj links sourceId t) :
    t = sourceId ∨ t ∈ allTargets links sourceId := by
  rcases h with ⟨e, he, h1 | h2⟩
  · by_cases ht : e.target = sourceId
    · exact Or.inl (h1.2 ▸ ht)
    · refine Or.inr (List.mem_map.mpr ⟨e, List.mem_filter.mpr ⟨he, ?_⟩, ?_⟩)
      · simp [h1.1]
      · rw [if_neg (by simpa using ht)]
        exact h1.2
  · refine Or.inr (List.mem_map.mpr ⟨e, List.mem_filter.mpr ⟨he, ?_⟩, ?_⟩)
    · simp [h2.2]
    · rw [if_pos (by simpa using h2.2)]
      exact h2.1

/-! ### Soundness invariants for `visit` -/

theorem stepSound_refl (links : List GraphEdge) (c : String)
    (ns : List GraphVertex) : StepSound links c ns ns where
  shape := sameShape_refl ns
  count_le := le_refl _
  mono := fun _ _ => rfl
  writes := fun _ h => absurd rfl h
  sat := fun _ h => absurd rfl h

theorem stepSound_trans {links : List GraphEdge} {c : String}
    {ns ns1 ns2 : List GraphVertex} (hc : c ≠ NONE_COMPONENT)
    (h1 : StepSound links c ns ns1) (h2 : StepSound links c ns1 ns2) :
    StepSound links c ns ns2 where
  shape := sameShape_trans h1.shape h2.shape
  count_le := le_trans h2.count_le h1.count_le
  mono := fun m hm => by
    rw [h2.mono m (h1.mono m hm ▸ hm), h1.mono m hm]
  writes := fun m hm => by
    by_cases hmid : vcomp ns1 m = vcomp ns m
    · have hch2 : vcomp ns2 m ≠ vcomp ns1 m := fun hh =>
        hm (hh.trans hmid)
      exact ⟨hmid ▸ (h2.writes m hch2).1, (h2.writes m hch2).2⟩
    · have hw1 := h1.writes m hmid
      have : vcomp ns2 m = vcomp ns1 m :=
        h2.mono m (by rw [hw1.2]; intro hh
                      exact hc (Option.some.inj hh))
      exact ⟨hw1.1, this ▸ hw1.2⟩
  sat := fun m hm t hadj => by
    by_cases hmid : vcomp ns1 m = vcomp ns m
    · have hch2 : vcomp ns2 m ≠ vcomp ns1 m := fun hh =>
        hm (hh.trans hmid)
      exact h2.sat m hch2 t hadj
    · have hs1 := h1.sat m hmid t hadj
      rw [h2.mono t hs1]
      exact hs1

theorem visitTargets_sound {links : List GraphEdge} {fuel : Nat}
    {c : String} (hc : c ≠ NONE_COMPONENT) (hvs : VisitSpec links fuel) :
    ∀ (ts : List String) (ns : List GraphVertex) (comps : List String),
    countNone ns < fuel →
    Closed links ns →
    (∀ t ∈ ts, t ∈ ns.map (fun v => v.id)) →
    ∃ ns',
      visitTargets (fun a b t => visit links fuel a b t (some c)) ts ns
        comps = Except.ok (ns', comps)
      ∧ StepSound links c ns ns'
      ∧ (∀ t ∈ ts, vcomp ns' t ≠ some NONE_COMPONENT)
      ∧ (∀ m, vcomp ns' m ≠ vcomp ns m → ∃ t ∈ ts, Reach links t m) := by
  intro ts
  induction ts with
  | nil =>
    intro ns comps hfuel hcl hts
    exact ⟨ns, rfl, stepSound_refl links c ns,
      fun t ht => absurd ht (List.not_mem_nil t),
      fun m hm => absurd rfl hm⟩
  | cons t ts ih =>
    intro ns comps hfuel hcl hts
    obtain ⟨ns1, heq1, hss1, hdone1, hreach1⟩ :=
      hvs ns comps t c hc hfuel hcl (hts t (by simp))
    have hids : ns.map (fun v => v.id) = ns1.map (fun v => v.id) :=
      sameShape_ids hss1.shape
    obtain ⟨ns2, heq2, hss2, hdone2, hreach2⟩ := ih ns1 comps
      (lt_of_le_of_lt hss1.count_le hfuel)
      (fun e he => by rw [← hids]; exact hcl e he)
      (fun t' ht' => by rw [← hids]; exact hts t' (by simp [ht']))
    refine ⟨ns2, ?_, stepSound_trans hc hss1 hss2, ?_, ?_⟩
    · simp only [visitTargets, heq1, heq2]
    · intro t' ht'
      rcases List.mem_cons.mp ht' with h | h
      · subst h
        rw [hss2.mono t' hdone1]
        exact hdone1
      · exact hdone2 t' h
    · intro m hm
      by_cases hmid : vcomp ns1 m = vcomp ns m
      · obtain ⟨t', ht', hr⟩ := hreach2 m (fun hh => hm (hh.trans hmid))
        exact ⟨t', by simp [ht'], hr⟩
      · exact ⟨t, by simp, hreach1 m hmid⟩

theorem visit_sound (links : List GraphEdge) :
    ∀ fuel, VisitSpec links fuel := by
  intro fuel
  induction fuel with
  | zero =>
    intro ns comps nid c hc hfuel hcl hnid
    omega
  | succ fuel ih =>
    intro ns comps nid c hc hfuel hcl hnid
    obtain ⟨v, hv⟩ :=
      Option.isSome_iff_exists.mp (mem_ids_iff_vfind_isSome.mp hnid)
    have hvfind : ns.find? (fun w => w.id == nid) = some v := hv
    by_cases hB : v.component = NONE_COMPONENT
    · -- the vertex still has the sentinel component: assign and recurse
      have hguard : (v.component != NONE_COMPONENT
          || some v.component == some c) = false := by
        rw [hB]
        simp only [bne_self_eq_false, Bool.false_or, beq_eq_false_iff_ne,
          ne_eq, Option.some.injEq]
        exact fun hh => hc hh.symm
      have hvcomp_nid : vcomp ns nid = some NONE_COMPONENT := by
        simp only [vcomp, hv, Option.map_some', hB]
      have hshape0 : SameShape ns
          (updateFirst (fun w => { w with component := c }) ns nid) :=
        sameShape_updateFirst
          (f := fun w => { w with component := c })
          (fun w => ⟨rfl, rfl, rfl⟩) ns nid
      have hcount : countNone
          (updateFirst (fun w => { w with component := c }) ns nid)
          < countNone ns := countNone_setComp_lt hc hvcomp_nid
      have hids0 : ns.map (fun v => v.id)
          = (updateFirst (fun w => { w with component := c }) ns nid).map
            (fun v => v.id) := sameShape_ids hshape0
      have hnodes_nid : vcomp
          (updateFirst (fun w => { w with component := c }) ns nid) nid
          = some c := by
        simp only [vcomp,
          vfind_updateFirst_self (f := fun w => { w with component := c })
            (fun w => rfl),
          hv]
        rfl
      have hnodes_other : ∀ m, m ≠ nid → vcomp
          (updateFirst (fun w => { w with component := c }) ns nid) m
          = vcomp ns m := fun m hm => by
        simp only [vcomp,
          vfind_updateFirst_ne (f := fun w => { w with component := c })
            (fun w => rfl) hm]
      obtain ⟨ns2, heqf, hssf, hdonef, hreachf⟩ :=
        visitTargets_sound hc ih (allTargets links nid)
          (updateFirst (fun w => { w with component := c }) ns nid) comps
          (by omega)
          (fun e he => by rw [← hids0]; exact hcl e he)
          (fun t ht => by
            rw [← hids0]
            obtain ⟨e, he, h1, h2⟩ :=
              adj_endpoints (adj_of_mem_allTargets ht)
            rcases h2 with h2 | h2
            · exact h2 ▸ (hcl e he).1
            · exact h2 ▸ (hcl e he).2)
      have hc' : (some c : Option String) ≠ some NONE_COMPONENT :=
        fun hh => hc (Option.some.inj hh)
      have hnid_final : vcomp ns2 nid ≠ some NONE_COMPONENT := by
        rw [hssf.mono nid (by rw [hnodes_nid]; exact hc'), hnodes_nid]
        exact hc'
      refine ⟨ns2, ?_, ?_, hnid_final, ?_⟩
      · simp only [visit, hvfind, hguard, Bool.false_eq_true, if_false]
        exact heqf
      · refine ⟨sameShape_trans hshape0 hssf.shape,
          le_of_lt (lt_of_le_of_lt hssf.count_le hcount), ?_, ?_, ?_⟩
        · intro m hm
          have hmne : m ≠ nid := fun hh => hm (hh ▸ hvcomp_nid)
          rw [hssf.mono m (by rw [hnodes_other m hmne]; exact hm),
            hnodes_other m hmne]
        · intro m hm
          by_cases hmn : m = nid
          · subst hmn
            refine ⟨hvcomp_nid, ?_⟩
            rw [hssf.mono m (by rw [hnodes_nid]; exact hc'), hnodes_nid]
          · have hch : vcomp ns2 m ≠ vcomp
                (updateFirst (fun w => { w with component := c }) ns nid)
                  m := fun hh => hm (hh.trans (hnodes_other m hmn))
            have hw := hssf.writes m hch
            exact ⟨(hnodes_other m hmn) ▸ hw.1, hw.2⟩
        · intro m hm t hadj
          by_cases hmn : m = nid
          · subst hmn
            rcases mem_allTargets_of_adj hadj with h | h
            · subst h
              exact hnid_final
            · exact hdonef t h
          · have hch : vcomp ns2 m ≠ vcomp
                (updateFirst (fun w => { w with component := c }) ns nid)
                  m := fun hh => hm (hh.trans (hnodes_other m hmn))
            exact hssf.sat m hch t hadj
      · intro m hm
        by_cases hmn : m = nid
        · subst hmn
          exact Reach.refl m
        · have hch : vcomp ns2 m ≠ vcomp
              (updateFirst (fun w => { w with component := c }) ns nid) m :=
            fun hh => hm (hh.trans (hnodes_other m hmn))
          obtain ⟨t, ht, hr⟩ := hreachf m hch
          exact reach_trans (reach_of_adj (adj_of_mem_allTargets ht)) hr
    · -- the vertex is already labelled: the guard returns immediately
      have hguard : (v.component != NONE_COMPONENT
          || some v.component == some c) = true := by
        simp [bne_iff_ne, hB]
      refine ⟨ns, ?_, stepSound_refl links c ns, ?_,
        fun m hm => absurd rfl hm⟩
      · simp only [visit, hvfind, hguard, if_true]
      · intro hh
        simp only [vcomp, hv, Option.map_some'] at hh
        exact hB (Option.some.inj hh)

theorem componentName_not_mem_canonical (k : Nat) :
    componentName (k + 1)
      ∉ (List.range k).map (fun i => componentName (i + 1)) := by
  intro h
  rcases List.mem_map.mp h with ⟨i, hi, he⟩
  have h1 := componentName_injective he
  have h2 := List.mem_range.mp hi
  omega

/-- Soundness of one top-level `visit(node)` call (`component = undefined`):
either the vertex is already labelled and nothing happens, or a fresh
component is allocated and flood-filled. -/
theorem visit_top_sound {links : List GraphEdge} {fuel : Nat}
    (ns : List GraphVertex) (comps : List String) (nid : String)
    (hfuel : countNone ns < fuel)
    (hcl : Closed links ns)
    (hnid : nid ∈ ns.map (fun v => v.id)) :
    (vcomp ns nid ≠ some NONE_COMPONENT
      ∧ visit links fuel ns comps nid none = Except.ok (ns, comps))
    ∨ (vcomp ns nid = some NONE_COMPONENT
      ∧ ∃ ns', visit links fuel ns comps nid none
          = Except.ok (ns', comps ++ [componentName (comps.length + 1)])
        ∧ StepSound links (componentName (comps.length + 1)) ns ns'
        ∧ vcomp ns' nid = some (componentName (comps.length + 1))
        ∧ (∀ m, vcomp ns' m ≠ vcomp ns m → Reach links nid m)) := by
  cases fuel with
  | zero => omega
  | succ fuel =>
    obtain ⟨v, hv⟩ :=
      Option.isSome_iff_exists.mp (mem_ids_iff_vfind_isSome.mp hnid)
    have hvfind : ns.find? (fun w => w.id == nid) = some v := hv
    by_cases hB : v.component = NONE_COMPONENT
    · right
      refine ⟨by simp only [vcomp, hv, Option.map_some', hB], ?_⟩
      have hc : componentName (comps.length + 1) ≠ NONE_COMPONENT :=
        componentName_ne_none _
      have hguard : (v.component != NONE_COMPONENT
          || some v.component == (none : Option String)) = false := by
        rw [hB]
        simp
      have hvcomp_nid : vcomp ns nid = some NONE_COMPONENT := by
        simp only [vcomp, hv, Option.map_some', hB]
      have hshape0 : SameShape ns
          (updateFirst
            (fun w => { w with component := componentName (comps.length + 1) })
            ns nid) :=
        sameShape_updateFirst
          (f := fun w =>
            { w with component := componentName (comps.length + 1) })
          (fun w => ⟨rfl, rfl, rfl⟩) ns nid
      have hcount : countNone
          (updateFirst
            (fun w => { w with component := componentName (comps.length + 1) })
            ns nid)
          < countNone ns := countNone_setComp_lt hc hvcomp_nid
      have hids0 : ns.map (fun v => v.id)
          = (updateFirst
            (fun w => { w with component := componentName (comps.length + 1) })
            ns nid).map (fun v => v.id) := sameShape_ids hshape0
      have hnodes_nid : vcomp
          (updateFirst
            (fun w => { w with component := componentName (comps.length + 1) })
            ns nid) nid
          = some (componentName (comps.length + 1)) := by
        simp only [vcomp,
          vfind_updateFirst_self
            (f := fun w =>
              { w with component := componentName (comps.length + 1) })
            (fun w => rfl),
          hv]
        rfl
      have hnodes_other : ∀ m, m ≠ nid → vcomp
          (updateFirst
            (fun w => { w with component := componentName (comps.length + 1) })
            ns nid) m
          = vcomp ns m := fun m hm => by
        simp only [vcomp,
          vfind_updateFirst_ne
            (f := fun w =>
              { w with component := componentName (comps.length + 1) })
            (fun w => rfl) hm]
      obtain ⟨ns2, heqf, hssf, hdonef, hreachf⟩ :=
        visitTargets_sound hc (visit_sound links fuel) (allTargets links nid)
          (updateFirst
            (fun w => { w with component := componentName (comps.length + 1) })
            ns nid) (comps ++ [componentName (comps.length + 1)])
          (by omega)
          (fun e he => by rw [← hids0]; exact hcl e he)
          (fun t ht => by
            rw [← hids0]
            obtain ⟨e, he, h1, h2⟩ :=
              adj_endpoints (adj_of_mem_allTargets ht)
            rcases h2 with h2 | h2
            · exact h2 ▸ (hcl e he).1
            · exact h2 ▸ (hcl e he).2)
      have hc' : (some (componentName (comps.length + 1)) : Option String)
          ≠ some NONE_COMPONENT := fun hh => hc (Option.some.inj hh)
      have hnid_final : vcomp ns2 nid
          = some (componentName (comps.length + 1)) := by
        rw [hssf.mono nid (by rw [hnodes_nid]; exact hc'), hnodes_nid]
      refine ⟨ns2, ?_, ?_, hnid_final, ?_⟩
      · simp only [visit, hvfind, hguard, Bool.false_eq_true, if_false]
        exact heqf
      · refine ⟨sameShape_trans hshape0 hssf.shape,
          le_of_lt (lt_of_le_of_lt hssf.count_le hcount), ?_, ?_, ?_⟩
        · intro m hm
          have hmne : m ≠ nid := fun hh => hm (hh ▸ hvcomp_nid)
          rw [hssf.mono m (by rw [hnodes_other m hmne]; exact hm),
            hnodes_other m hmne]
        · intro m hm
          by_cases hmn : m = nid
          · subst hmn
            exact ⟨hvcomp_nid, hnid_final⟩
          · have hch : vcomp ns2 m ≠ vcomp
                (updateFirst
                  (fun w =>
                    { w with component := componentName (comps.length + 1) })
                  ns nid) m :=
              fun hh => hm (hh.trans (hnodes_other m hmn))
            have hw := hssf.writes m hch
            exact ⟨(hnodes_other m hmn) ▸ hw.1, hw.2⟩
        · intro m hm t hadj
          by_cases hmn : m = nid
          · subst hmn
            rcases mem_allTargets_of_adj hadj with h | h
            · subst h
              rw [hnid_final]
              exact hc'
            · exact hdonef t h
          · have hch : vcomp ns2 m ≠ vcomp
                (updateFirst
                  (fun w =>
                    { w with component := componentName (comps.length + 1) })
                  ns nid) m :=
              fun hh => hm (hh.trans (hnodes_other m hmn))
            exact hssf.sat m hch t hadj
      · intro m hm
        by_cases hmn : m = nid
        · subst hmn
          exact Reach.refl m
        · have hch : vcomp ns2 m ≠ vcomp
              (updateFirst
                (fun w =>
                  { w with component := componentName (comps.length + 1) })
                ns nid) m :=
            fun hh => hm (hh.trans (hnodes_other m hmn))
          obtain ⟨t, ht, hr⟩ := hreachf m hch
          exact reach_trans (reach_of_adj (adj_of_mem_allTargets ht)) hr
    · left
      constructor
      · intro hh
        simp only [vcomp, hv, Option.map_some'] at hh
        exact hB (Option.some.inj hh)
      · have hguard : (v.component != NONE_COMPONENT
            || some v.component == (none : Option String)) = true := by
          simp [bne_iff_ne, hB]
        simp only [visit, hvfind, hguard, if_true]

theorem loopInv_init {links : List GraphEdge} {ns0 : List GraphVertex}
    (hall : ∀ v ∈ ns0, v.component = NONE_COMPONENT) :
    LoopInv links ns0 ns0 [] := by
  have hval : ∀ m ctag, vcomp ns0 m = some ctag → ctag = NONE_COMPONENT := by
    intro m ctag hm
    cases hfind : vfind ns0 m with
    | none => simp [vcomp, hfind] at hm
    | some v =>
      simp only [vcomp, hfind, Option.map_some'] at hm
      exact (Option.some.inj hm).symm.trans
        (hall v (List.mem_of_find?_eq_some hfind))
  refine ⟨sameShape_refl ns0, ⟨0, rfl⟩, ?_, ?_, ?_, ?_⟩
  · intro m ctag hm
    exact Or.inl (hval m ctag hm)
  · intro m n ctag hm _ hne
    exact absurd (hval m ctag hm) hne
  · intro m ctag hm hne t _
    exact absurd (hval m ctag hm) hne
  · intro a b _ ca cb ha _ hca _
    exact absurd (hval a ca ha) hca

theorem loopInv_step {links : List GraphEdge}
    {ns0 ns ns' : List GraphVertex} {comps : List String} {nid : String}
    (inv : LoopInv links ns0 ns comps)
    (hss : StepSound links (componentName (comps.length + 1)) ns ns')
    (hreach : ∀ m, vcomp ns' m ≠ vcomp ns m → Reach links nid m) :
    LoopInv links ns0 ns' (comps ++ [componentName (comps.length + 1)]) := by
  have hcnone : componentName (comps.length + 1) ≠ NONE_COMPONENT :=
    componentName_ne_none _
  obtain ⟨k, hk⟩ := inv.comps_canonical
  have hlenk : comps.length = k := by
    rw [hk]
    simp
  have hfresh : componentName (comps.length + 1) ∉ comps := by
    rw [hlenk, hk]
    exact componentName_not_mem_canonical k
  -- a vertex labelled with the fresh component must have been labelled in
  -- this round
  have hcofc : ∀ m, vcomp ns' m = some (componentName (comps.length + 1)) →
      vcomp ns' m ≠ vcomp ns m := by
    intro m hm heq
    rcases inv.values m _ (heq ▸ hm) with h | h
    · exact hcnone h
    · exact hfresh h
  refine ⟨sameShape_trans inv.shape hss.shape, ?_, ?_, ?_, ?_, ?_⟩
  · refine ⟨k + 1, ?_⟩
    rw [List.range_succ, List.map_append, ← hk, hlenk]
    rfl
  · intro m ctag hm
    by_cases hch : vcomp ns' m = vcomp ns m
    · rcases inv.values m ctag (hch ▸ hm) with h | h
      · exact Or.inl h
      · exact Or.inr (List.mem_append_left _ h)
    · have hw := hss.writes m hch
      rw [hm] at hw
      exact Or.inr (List.mem_append_right _
        (by rw [Option.some.inj hw.2]; exact List.mem_singleton_self _))
  · intro m n ctag hm hn hne
    by_cases hchm : vcomp ns' m = vcomp ns m
    · by_cases hchn : vcomp ns' n = vcomp ns n
      · exact inv.connected m n ctag (hchm ▸ hm) (hchn ▸ hn) hne
      · -- n was freshly labelled, m was not: impossible for equal labels
        have hwn := hss.writes n hchn
        rw [hn] at hwn
        have : ctag = componentName (comps.length + 1) :=
          Option.some.inj hwn.2
        subst this
        rcases inv.values m _ (hchm ▸ hm) with h | h
        · exact absurd h hcnone
        · exact absurd h hfresh
    · by_cases hchn : vcomp ns' n = vcomp ns n
      · have hwm := hss.writes m hchm
        rw [hm] at hwm
        have : ctag = componentName (comps.length + 1) :=
          Option.some.inj hwm.2
        subst this
        rcases inv.values n _ (hchn ▸ hn) with h | h
        · exact absurd h hcnone
        · exact absurd h hfresh
      · exact reach_trans (reach_symm (hreach m hchm)) (hreach n hchn)
  · intro m ctag hm hne t hadj
    by_cases hch : vcomp ns' m = vcomp ns m
    · have := inv.sat m ctag (hch ▸ hm) hne t hadj
      rw [hss.mono t this]
      exact this
    · exact hss.sat m hch t hadj
  · intro a b hadj ca cb ha hb hca hcb
    by_cases hcha : vcomp ns' a = vcomp ns a
    · by_cases hchb : vcomp ns' b = vcomp ns b
      · exact inv.edges a b hadj ca cb (hcha ▸ ha) (hchb ▸ hb) hca hcb
      · -- b freshly labelled while a was already labelled: the old
        -- saturation invariant rules this out
        have hwb := hss.writes b hchb
        have hsat := inv.sat a ca (hcha ▸ ha) hca b hadj
        exact absurd hwb.1 hsat
    · by_cases hchb : vcomp ns' b = vcomp ns b
      · have hwa := hss.writes a hcha
        have hsat := inv.sat b cb (hchb ▸ hb) hcb a (adj_symm hadj)
        exact absurd hwa.1 hsat
      · have hwa := hss.writes a hcha
        have hwb := hss.writes b hchb
        rw [ha] at hwa
        rw [hb] at hwb
        rw [Option.some.inj hwa.2, Option.some.inj hwb.2]

theorem visitAll_sound {links : List GraphEdge} {fuel : Nat}
    {ns0 : List GraphVertex} (hfuel : ns0.length < fuel)
    (hcl0 : Closed links ns0) :
    ∀ (l : List String) (ns : List GraphVertex) (comps : List String),
    LoopInv links ns0 ns comps →
    (∀ x ∈ l, x ∈ ns0.map (fun v => v.id)) →
    ∃ ns' comps',
      visitAll links fuel l ns comps = Except.ok (ns', comps')
      ∧ LoopInv links ns0 ns' comps'
      ∧ (∀ x ∈ l, vcomp ns' x ≠ some NONE_COMPONENT)
      ∧ (∀ m, vcomp ns m ≠ some NONE_COMPONENT →
          vcomp ns' m = vcomp ns m) := by
  intro l
  induction l with
  | nil =>
    intro ns comps inv _
    exact ⟨ns, comps, rfl, inv, fun x hx => absurd hx (List.not_mem_nil x),
      fun m _ => rfl⟩
  | cons x l ih =>
    intro ns comps inv hmem
    have hids : ns0.map (fun v => v.id) = ns.map (fun v => v.id) :=
      sameShape_ids inv.shape
    have hcount : countNone ns < fuel := by
      have h1 := countNone_le_length ns
      have h2 := sameShape_length inv.shape
      omega
    have hcl : Closed links ns := fun e he => by
      rw [← hids]
      exact hcl0 e he
    have hx : x ∈ ns.map (fun v => v.id) := by
      rw [← hids]
      exact hmem x (by simp)
    rcases visit_top_sound ns comps x hcount hcl hx with
      ⟨hdone, heq⟩ | ⟨_, ns1, heq, hss, hx1, hreach⟩
    · obtain ⟨ns', comps', heq', inv', hdone', hmono'⟩ :=
        ih ns comps inv (fun y hy => hmem y (by simp [hy]))
      refine ⟨ns', comps', ?_, inv', ?_, hmono'⟩
      · simp only [visitAll, heq, heq']
      · intro y hy
        rcases List.mem_cons.mp hy with h | h
        · subst h
          rw [hmono' y hdone]
          exact hdone
        · exact hdone' y h
    · have inv1 : LoopInv links ns0 ns1
          (comps ++ [componentName (comps.length + 1)]) :=
        loopInv_step inv hss hreach
      obtain ⟨ns', comps', heq', inv', hdone', hmono'⟩ :=
        ih ns1 _ inv1 (fun y hy => hmem y (by simp [hy]))
      refine ⟨ns', comps', ?_, inv', ?_, ?_⟩
      · simp only [visitAll, heq, heq']
      · intro y hy
        rcases List.mem_cons.mp hy with h | h
        · subst h
          have hy1 : vcomp ns1 y ≠ some NONE_COMPONENT := by
            rw [hx1]
            exact fun hh => componentName_ne_none _ (Option.some.inj hh)
          rw [hmono' y hy1]
          exact hy1
        · exact hdone' y h
      · intro m hm
        have h1 : vcomp ns1 m = vcomp ns m := hss.mono m hm
        rw [hmono' m (by rw [h1]; exact hm), h1]

theorem identifyComponents_sound {g : LinkGraph}
    (hcl : Closed g.links g.nodes)
    (hall : ∀ v ∈ g.nodes, v.component = NONE_COMPONENT) :
    ∃ ns' comps',
      identifyComponents g = Except.ok (ns', comps')
      ∧ SameShape g.nodes ns'
      ∧ (∀ m, m ∈ g.nodes.map (fun v => v.id) →
          vcomp ns' m ≠ some NONE_COMPONENT)
      ∧ (∀ m n, m ∈ g.nodes.map (fun v => v.id) →
          n ∈ g.nodes.map (fun v => v.id) →
          (vcomp ns' m = vcomp ns' n ↔ Reach g.links m n)) := by
  obtain ⟨ns', comps', heq, inv, hdone, _⟩ :=
    visitAll_sound
      (show g.nodes.length < g.nodes.length + 1 by omega) hcl
      (g.nodes.map (fun v => v.id)) g.nodes [] (loopInv_init hall)
      (fun x hx => hx)
  refine ⟨ns', comps', heq, inv.shape, hdone, ?_⟩
  have hids : g.nodes.map (fun v => v.id) = ns'.map (fun v => v.id) :=
    sameShape_ids inv.shape
  have hedge : ∀ a b, adj g.links a b → vcomp ns' a = vcomp ns' b := by
    intro a b hadj
    obtain ⟨e, he, h1, h2⟩ := adj_endpoints hadj
    have ha_mem : a ∈ g.nodes.map (fun v => v.id) := by
      rcases h1 with h | h
      · exact h ▸ (hcl e he).1
      · exact h ▸ (hcl e he).2
    have hb_mem : b ∈ g.nodes.map (fun v => v.id) := by
      rcases h2 with h | h
      · exact h ▸ (hcl e he).1
      · exact h ▸ (hcl e he).2
    have ha_mem' : a ∈ ns'.map (fun v => v.id) := by
      rw [← hids]
      exact ha_mem
    have hb_mem' : b ∈ ns'.map (fun v => v.id) := by
      rw [← hids]
      exact hb_mem
    obtain ⟨va, hva⟩ :=
      Option.isSome_iff_exists.mp (mem_ids_iff_vfind_isSome.mp ha_mem')
    obtain ⟨vb, hvb⟩ :=
      Option.isSome_iff_exists.mp (mem_ids_iff_vfind_isSome.mp hb_mem')
    have hca : vcomp ns' a = some va.component := by
      simp [vcomp, hva]
    have hcb : vcomp ns' b = some vb.component := by
      simp [vcomp, hvb]
    rw [hca, hcb]
    exact congrArg some
      (inv.edges a b hadj va.component vb.component hca hcb
        (fun hh => hdone a ha_mem (by rw [hca, hh]))
        (fun hh => hdone b hb_mem (by rw [hcb, hh])))
  have hreach_eq : ∀ m n, Reach g.links m n →
      vcomp ns' m = vcomp ns' n := by
    intro m n h
    induction h with
    | refl => rfl
    | tail _ hadj ih => exact ih.trans (hedge _ _ hadj)
  intro m n hm hn
  constructor
  · intro h
    have hm' : m ∈ ns'.map (fun v => v.id) := by
      rw [← hids]
      exact hm
    obtain ⟨vm, hvm⟩ :=
      Option.isSome_iff_exists.mp (mem_ids_iff_vfind_isSome.mp hm')
    have hcm : vcomp ns' m = some vm.component := by
      simp [vcomp, hvm]
    exact inv.connected m n vm.component hcm (h.symm.trans hcm)
      (fun hh => hdone m hm (by rw [hcm, hh]))
  · exact hreach_eq m n

/-! ### Structure of the graph `buildGraph` assembles -/

theorem buildNodesLinks_links :
    ∀ (db : List (String × List String)) (nodes : List GraphVertex)
      (links : List GraphEdge),
    (buildNodesLinks db (nodes, links)).2
      = links ++ db.flatMap
        (fun p => p.2.map
          (fun t => { source := p.1, target := t, weight := 1 })) := by
  intro db
  induction db with
  | nil => intro nodes links; simp [buildNodesLinks]
  | cons p rest ih =>
    intro nodes links
    cases p with
    | mk file outbound =>
      simp only [buildNodesLinks]
      rw [ih, List.flatMap_cons, List.append_assoc]

theorem buildNodesLinks_nodes_pred (Q : GraphVertex → Prop)
    (hnew : ∀ f, Q (newVertex f)) :
    ∀ (db : List (String × List String)) (nodes : List GraphVertex)
      (links : List GraphEdge),
    (∀ v ∈ nodes, Q v) →
    ∀ v ∈ (buildNodesLinks db (nodes, links)).1, Q v := by
  intro db
  induction db with
  | nil => intro nodes links h; exact h
  | cons p rest ih =>
    intro nodes links h
    cases p with
    | mk file outbound =>
      simp only [buildNodesLinks]
      by_cases hf : (nodes.find? (fun v => v.id == file)).isSome
      · rw [if_pos hf]
        exact ih nodes _ h
      · rw [if_neg hf]
        refine ih _ _ ?_
        intro v hv
        rcases List.mem_append.mp hv with hv | hv
        · exact h v hv
        · rw [List.mem_singleton.mp hv]
          exact hnew file

theorem buildNodesLinks_ids :
    ∀ (db : List (String × List String)) (nodes : List GraphVertex)
      (links : List GraphEdge) (m : String),
    m ∈ (buildNodesLinks db (nodes, links)).1.map (fun v => v.id)
      ↔ m ∈ nodes.map (fun v => v.id) ∨ m ∈ db.map (fun p => p.1) := by
  intro db
  induction db with
  | nil => intro nodes links m; simp [buildNodesLinks]
  | cons p rest ih =>
    intro nodes links m
    cases p with
    | mk file outbound =>
      simp only [buildNodesLinks]
      by_cases hf : (nodes.find? (fun v => v.id == file)).isSome
      · rw [if_pos hf]
        rw [ih]
        simp only [List.map_cons, List.mem_cons]
        constructor
        · rintro (h | h)
          · exact Or.inl h
          · exact Or.inr (Or.inr h)
        · rintro (h | h | h)
          · exact Or.inl h
          · subst h
            exact Or.inl (mem_ids_iff_vfind_isSome.mpr hf)
          · exact Or.inr h
      · rw [if_neg hf]
        rw [ih]
        simp only [List.map_append, List.map_cons, List.mem_cons,
          List.mem_append]
        constructor
        · rintro ((h | h) | h)
          · exact Or.inl h
          · simp only [List.map_cons, List.map_nil,
              List.mem_singleton] at h
            exact Or.inr (Or.inl (by simpa [newVertex] using h))
          · exact Or.inr (Or.inr h)
        · rintro (h | h | h)
          · exact Or.inl (Or.inl h)
          · subst h
            exact Or.inl (Or.inr (by simp [newVertex]))
          · exact Or.inr h

theorem buildNodesLinks_nodup :
    ∀ (db : List (String × List String)) (nodes : List GraphVertex)
      (links : List GraphEdge),
    (nodes.map (fun v => v.id)).Nodup →
    ((buildNodesLinks db (nodes, links)).1.map (fun v => v.id)).Nodup := by
  intro db
  induction db with
  | nil => intro nodes links h; exact h
  | cons p rest ih =>
    intro nodes links h
    cases p with
    | mk file outbound =>
      simp only [buildNodesLinks]
      by_cases hf : (nodes.find? (fun v => v.id == file)).isSome
      · rw [if_pos hf]
        exact ih nodes _ h
      · rw [if_neg hf]
        refine ih _ _ ?_
        have hnot : file ∉ nodes.map (fun v => v.id) := by
          intro hmem
          exact hf (mem_ids_iff_vfind_isSome.mp hmem)
        rw [List.map_append]
        refine List.Nodup.append h (by simp [newVertex]) ?_
        intro x hx hx2
        simp only [List.map_cons, List.map_nil, List.mem_singleton,
          newVertex] at hx2
        subst hx2
        exact hnot hx

theorem mem_insertionDedup :
    ∀ (l acc : List String) (x : String),
    x ∈ insertionDedup acc l ↔ x ∈ acc ∨ x ∈ l := by
  intro l
  induction l with
  | nil => intro acc x; simp [insertionDedup]
  | cons y ys ih =>
    intro acc x
    simp only [insertionDedup]
    by_cases hy : y ∈ acc
    · rw [if_pos hy, ih]
      constructor
      · rintro (h | h)
        · exact Or.inl h
        · exact Or.inr (List.mem_cons_of_mem y h)
      · rintro (h | h)
        · exact Or.inl h
        · rcases List.mem_cons.mp h with hh | hh
          · exact Or.inl (hh ▸ hy)
          · exact Or.inr hh
    · rw [if_neg hy, ih]
      constructor
      · rintro (h | h)
        · rcases List.mem_append.mp h with hh | hh
          · exact Or.inl hh
          · exact Or.inr
              (List.mem_cons.mpr (Or.inl (List.mem_singleton.mp hh)))
        · exact Or.inr (List.mem_cons_of_mem y h)
      · rintro (h | h)
        · exact Or.inl (List.mem_append.mpr (Or.inl h))
        · rcases List.mem_cons.mp h with hh | hh
          · exact Or.inl (List.mem_append.mpr (Or.inr (by simp [hh])))
          · exact Or.inr hh

theorem sameCore_refl (ns : List GraphVertex) : SameCore ns ns := by
  induction ns with
  | nil => exact List.Forall₂.nil
  | cons v rest ih => exact List.Forall₂.cons ⟨rfl, rfl, rfl⟩ ih

theorem sameCore_trans {a b c : List GraphVertex} (h1 : SameCore a b)
    (h2 : SameCore b c) : SameCore a c := by
  induction h1 generalizing c with
  | nil => cases h2; exact List.Forall₂.nil
  | cons hx hrest ih =>
    cases h2 with
    | cons hy hrest' =>
      exact List.Forall₂.cons
        ⟨hx.1.trans hy.1, hx.2.1.trans hy.2.1, hx.2.2.trans hy.2.2⟩
        (ih hrest')

theorem sameCore_ids {ns ns' : List GraphVertex} (h : SameCore ns ns') :
    ns.map (fun v => v.id) = ns'.map (fun v => v.id) := by
  induction h with
  | nil => rfl
  | cons hx hrest ih => simp [hx.1, ih]

theorem sameCore_vcomp {ns ns' : List GraphVertex} (h : SameCore ns ns') :
    ∀ m, vcomp ns' m = vcomp ns m := by
  intro m
  induction h with
  | nil => rfl
  | cons hx hrest ih =>
    rename_i u v _ _
    by_cases hm : u.id = m
    · simp [vcomp, vfind, List.find?_cons_of_pos, hm, hx.1 ▸ hm, hx.2.2,
        ← hx.1]
    · have hm' : ¬ v.id = m := fun hh => hm (hx.1 ▸ hh)
      simp only [vcomp, vfind] at ih ⊢
      rw [List.find?_cons_of_neg _ (by simpa using hm'),
        List.find?_cons_of_neg _ (by simpa using hm)]
      exact ih

theorem sameCore_mem_pred {ns ns' : List GraphVertex}
    (h : SameCore ns ns') (Q : String → String → Prop)
    (hq : ∀ v ∈ ns, Q v.id v.component) :
    ∀ v ∈ ns', Q v.id v.component := by
  induction h with
  | nil => intro v hv; exact absurd hv (List.not_mem_nil v)
  | cons hx hrest ih =>
    rename_i u w _ _
    intro v hv
    rcases List.mem_cons.mp hv with h | h
    · subst h
      have := hq u (by simp)
      rwa [hx.1, hx.2.2] at this
    · exact ih (fun v2 hv2 => hq v2 (by simp [hv2])) v h

theorem updateFirst_ids {f : GraphVertex → GraphVertex}
    (hf : ∀ v, (f v).id = v.id) :
    ∀ (ns : List GraphVertex) (nid : String),
    (updateFirst f ns nid).map (fun v => v.id)
      = ns.map (fun v => v.id) := by
  intro ns
  induction ns with
  | nil => intro nid; rfl
  | cons v rest ih =>
    intro nid
    by_cases hv : v.id = nid
    · simp only [updateFirst, hv, beq_self_eq_true, if_true, List.map_cons,
        hf v]
    · simp only [updateFirst, beq_iff_eq, hv, if_false, List.map_cons,
        ih nid]

theorem sameCore_updateIso (ns : List GraphVertex) (nid : String) :
    SameCore ns (updateFirst (fun v => { v with isolate := false }) ns nid) := by
  induction ns with
  | nil => exact List.Forall₂.nil
  | cons v rest ih =>
    by_cases hv : v.id = nid
    · have hbeq : (v.id == nid) = true := by simp [hv]
      simp only [updateFirst, hbeq, if_true]
      exact List.Forall₂.cons ⟨rfl, rfl, rfl⟩ (sameCore_refl rest)
    · have hbeq : (v.id == nid) = false := by simp [hv]
      simp only [updateFirst, hbeq, Bool.false_eq_true, if_false]
      exact List.Forall₂.cons ⟨rfl, rfl, rfl⟩ ih

theorem markConnected_error :
    ∀ (l : List String) (ns : List GraphVertex),
    (∃ x ∈ l, x ∉ ns.map (fun v => v.id)) →
    markConnected ns l = Except.error didntFindNode := by
  intro l
  induction l with
  | nil => intro ns h; rcases h with ⟨x, hx, _⟩; exact absurd hx (by simp)
  | cons y ys ih =>
    intro ns h
    by_cases hy : (ns.find? (fun v => v.id == y)).isSome
    · simp only [markConnected, if_pos hy]
      apply ih
      rcases h with ⟨x, hx, hnx⟩
      rcases List.mem_cons.mp hx with hh | hh
      · subst hh
        exact absurd (mem_ids_iff_vfind_isSome.mpr hy) hnx
      · refine ⟨x, hh, ?_⟩
        rwa [updateFirst_ids (f := fun v => { v with isolate := false })
          (fun v => rfl)]
    · simp only [markConnected, if_neg hy]

theorem markConnected_ok :
    ∀ (l : List String) (ns : List GraphVertex),
    (∀ x ∈ l, x ∈ ns.map (fun v => v.id)) →
    ∃ ns', markConnected ns l = Except.ok ns'
      ∧ SameCore ns ns'
      ∧ (∀ m ∈ l, viso ns' m = some false)
      ∧ (∀ m, m ∉ l → viso ns' m = viso ns m) := by
  intro l
  induction l with
  | nil =>
    intro ns _
    exact ⟨ns, rfl, sameCore_refl ns,
      fun m hm => absurd hm (List.not_mem_nil m), fun m _ => rfl⟩
  | cons y ys ih =>
    intro ns h
    have hy : (ns.find? (fun v => v.id == y)).isSome :=
      mem_ids_iff_vfind_isSome.mp (h y (by simp))
    obtain ⟨ns', heq, hcore, hin, hout⟩ :=
      ih (updateFirst (fun v => { v with isolate := false }) ns y)
        (fun x hx => by
          rw [updateFirst_ids (f := fun v => { v with isolate := false })
            (fun v => rfl)]
          exact h x (by simp [hx]))
    have hyiso : viso
        (updateFirst (fun v => { v with isolate := false }) ns y) y
        = some false := by
      obtain ⟨v, hv⟩ := Option.isSome_iff_exists.mp hy
      have hv' : vfind ns y = some v := hv
      have hfound : vfind
          (updateFirst (fun v => { v with isolate := false }) ns y) y
          = some { v with isolate := false } := by
        rw [vfind_updateFirst_self
          (f := fun v => { v with isolate := false }) (fun v => rfl), hv']
        rfl
      simp [viso, hfound]
    refine ⟨ns', ?_, sameCore_trans (sameCore_updateIso ns y) hcore,
      ?_, ?_⟩
    · simp only [markConnected, if_pos hy]
      exact heq
    · intro m hm
      rcases List.mem_cons.mp hm with hh | hh
      · subst hh
        by_cases hmem : m ∈ ys
        · exact hin m hmem
        · rw [hout m hmem]
          exact hyiso
      · exact hin m hh
    · intro m hm
      have hm1 : m ∉ ys := fun hh => hm (by simp [hh])
      have hm2 : m ≠ y := fun hh => hm (by simp [hh])
      rw [hout m hm1, viso,
        vfind_updateFirst_ne (f := fun v => { v with isolate := false })
          (fun v => rfl) hm2]
      rfl

theorem mapHas_iff_mem_keys {m : List (String × List String)}
    {k : String} : mapHas m k = true ↔ k ∈ m.map (fun p => p.1) := by
  simp only [mapHas, List.any_eq_true, List.mem_map, beq_iff_eq]

theorem vfind_of_mem_nodup :
    ∀ {ns : List GraphVertex} {v : GraphVertex},
    (ns.map (fun v => v.id)).Nodup → v ∈ ns → vfind ns v.id = some v := by
  intro ns
  induction ns with
  | nil =>
    intro v _ hv
    exact absurd hv (List.not_mem_nil v)
  | cons u rest ih =>
    intro v hnodup hv
    simp only [List.map_cons, List.nodup_cons] at hnodup
    rcases List.mem_cons.mp hv with h | h
    · subst h
      exact List.find?_cons_of_pos _ (by simp)
    · have hne : u.id ≠ v.id := by
        intro hh
        exact hnodup.1 (hh ▸ List.mem_map.mpr ⟨v, h, rfl⟩)
      rw [vfind, List.find?_cons_of_neg _ (by simpa using hne)]
      exact ih hnodup.2 h

theorem reach_ne_incident {links : List GraphEdge} {a b : String}
    (h : Reach links a b) (hne : a ≠ b) :
    ∃ e ∈ links, e.source = b ∨ e.target = b := by
  induction h with
  | refl => exact absurd rfl hne
  | tail _ hadj _ =>
    obtain ⟨e, he, _, h2⟩ := adj_endpoints hadj
    exact ⟨e, he, h2⟩

theorem mem_graph_links {st : LinkState} {e : GraphEdge} :
    e ∈ (buildNodesLinks st.fileLinkDatabase ([], [])).2
      ↔ ∃ p ∈ st.fileLinkDatabase, ∃ t ∈ p.2,
        e = { source := p.1, target := t, weight := 1 } := by
  rw [buildNodesLinks_links]
  simp only [List.nil_append, List.mem_flatMap, List.mem_map]
  constructor
  · rintro ⟨p, hp, t, ht, he⟩
    exact ⟨p, hp, t, ht, he.symm⟩
  · rintro ⟨p, hp, t, ht, he⟩
    exact ⟨p, hp, t, ht, he.symm⟩

theorem graph_nodes0_ids {st : LinkState} {m : String} :
    m ∈ (buildNodesLinks st.fileLinkDatabase ([], [])).1.map
        (fun v => v.id)
      ↔ m ∈ st.fileLinkDatabase.map (fun p => p.1) := by
  rw [buildNodesLinks_ids]
  simp

theorem buildGraph_ok_spec (st : LinkState) (h : AllTargetsKnown st) :
    ∃ g, buildGraph st = Except.ok g
      ∧ g.links = (buildNodesLinks st.fileLinkDatabase ([], [])).2
      ∧ (g.nodes.map (fun v => v.id)).Nodup
      ∧ (∀ m, m ∈ g.nodes.map (fun v => v.id)
          ↔ m ∈ st.fileLinkDatabase.map (fun p => p.1))
      ∧ (∀ v ∈ g.nodes, v.component ≠ NONE_COMPONENT)
      ∧ (∀ u ∈ g.nodes, ∀ v ∈ g.nodes,
          (u.component = v.component ↔ Reach g.links u.id v.id))
      ∧ (∀ v ∈ g.nodes,
          (v.isolate = false
            ↔ ∃ e ∈ g.links, e.source = v.id ∨ e.target = v.id)) := by
  cases hbl : buildNodesLinks st.fileLinkDatabase ([], []) with
  | mk nodes0 links =>
  have hlinks : links = (buildNodesLinks st.fileLinkDatabase ([], [])).2 := by
    rw [hbl]
  have hnodes0 : nodes0 = (buildNodesLinks st.fileLinkDatabase ([], [])).1 := by
    rw [hbl]
  have hids0 : ∀ m, m ∈ nodes0.map (fun v => v.id)
      ↔ m ∈ st.fileLinkDatabase.map (fun p => p.1) := by
    intro m
    rw [hnodes0]
    exact graph_nodes0_ids
  have hnodup0 : (nodes0.map (fun v => v.id)).Nodup := by
    rw [hnodes0]
    exact buildNodesLinks_nodup st.fileLinkDatabase [] [] (by simp)
  have hpred0 : ∀ v ∈ nodes0,
      v.component = NONE_COMPONENT ∧ v.isolate = true := by
    rw [hnodes0]
    exact buildNodesLinks_nodes_pred _ (fun f => ⟨rfl, rfl⟩)
      st.fileLinkDatabase [] [] (fun v hv => absurd hv (List.not_mem_nil v))
  have hsrc_keys : ∀ e ∈ links, e.source
      ∈ st.fileLinkDatabase.map (fun p => p.1) := by
    intro e he
    obtain ⟨p, hp, t, _, hee⟩ := mem_graph_links.mp (hlinks ▸ he)
    subst hee
    exact List.mem_map.mpr ⟨p, hp, rfl⟩
  have htgt_keys : ∀ e ∈ links, e.target
      ∈ st.fileLinkDatabase.map (fun p => p.1) := by
    intro e he
    obtain ⟨p, hp, t, ht, hee⟩ := mem_graph_links.mp (hlinks ▸ he)
    subst hee
    exact mapHas_iff_mem_keys.mp (h p hp t ht)
  -- first isolate pass (sources)
  obtain ⟨nodes1, heq1, hcore1, hin1, hout1⟩ :=
    markConnected_ok (insertionDedup [] (links.map (fun l => l.source)))
      nodes0
      (fun x hx => by
        rcases (mem_insertionDedup _ [] x).mp hx with hh | hh
        · exact absurd hh (List.not_mem_nil x)
        · obtain ⟨e, he, hee⟩ := List.mem_map.mp hh
          exact (hids0 x).mpr (hee ▸ hsrc_keys e he))
  have hids1 : nodes1.map (fun v => v.id) = nodes0.map (fun v => v.id) :=
    (sameCore_ids hcore1).symm
  -- second isolate pass (targets)
  obtain ⟨nodes2, heq2, hcore2, hin2, hout2⟩ :=
    markConnected_ok (insertionDedup [] (links.map (fun l => l.target)))
      nodes1
      (fun x hx => by
        rcases (mem_insertionDedup _ [] x).mp hx with hh | hh
        · exact absurd hh (List.not_mem_nil x)
        · obtain ⟨e, he, hee⟩ := List.mem_map.mp hh
          rw [hids1]
          exact (hids0 x).mpr (hee ▸ htgt_keys e he))
  have hids2 : nodes2.map (fun v => v.id) = nodes0.map (fun v => v.id) :=
    (sameCore_ids (sameCore_trans hcore1 hcore2)).symm
  have hnodup2 : (nodes2.map (fun v => v.id)).Nodup := by
    rw [hids2]
    exact hnodup0
  have hall2 : ∀ v ∈ nodes2, v.component = NONE_COMPONENT := by
    have := sameCore_mem_pred (sameCore_trans hcore1 hcore2)
      (fun _ c => c = NONE_COMPONENT) (fun v hv => (hpred0 v hv).1)
    exact this
  have hclosed2 : Closed links nodes2 := by
    intro e he
    rw [hids2]
    exact ⟨(hids0 _).mpr (hsrc_keys e he), (hids0 _).mpr (htgt_keys e he)⟩
  -- component labelling
  obtain ⟨ns3, comps3, heq3, hshape3, hdone3, hiff3⟩ :=
    identifyComponents_sound
      (g := { nodes := nodes2, links := links, components := [] })
      hclosed2 hall2
  have hids3 : ns3.map (fun v => v.id) = nodes0.map (fun v => v.id) := by
    rw [← sameShape_ids hshape3]
    exact hids2
  have hnodup3 : (ns3.map (fun v => v.id)).Nodup := by
    rw [hids3]
    exact hnodup0
  refine ⟨{ nodes := ns3, links := links, components := comps3 }, ?_, ?_,
    hnodup3, ?_, ?_, ?_, ?_⟩
  · -- the run of buildGraph
    simp only [buildGraph, hbl, bind, Except.bind, heq1, heq2]
    simp only [identifyComponents] at heq3
    simp only [identifyComponents, heq3]
  · rfl
  · intro m
    rw [hids3]
    exact hids0 m
  · intro v hv
    have hfind : vfind ns3 v.id = some v := vfind_of_mem_nodup hnodup3 hv
    have hmem : v.id ∈ nodes2.map (fun w => w.id) := by
      rw [hids2, ← hids3]
      exact List.mem_map.mpr ⟨v, hv, rfl⟩
    have := hdone3 v.id hmem
    simp only [vcomp, hfind, Option.map_some'] at this
    exact fun hh => this (by rw [hh])
  · intro u hu v hv
    have hfu : vfind ns3 u.id = some u := vfind_of_mem_nodup hnodup3 hu
    have hfv : vfind ns3 v.id = some v := vfind_of_mem_nodup hnodup3 hv
    have hmu : u.id ∈ nodes2.map (fun w => w.id) := by
      rw [hids2, ← hids3]
      exact List.mem_map.mpr ⟨u, hu, rfl⟩
    have hmv : v.id ∈ nodes2.map (fun w => w.id) := by
      rw [hids2, ← hids3]
      exact List.mem_map.mpr ⟨v, hv, rfl⟩
    have hiff := hiff3 u.id v.id hmu hmv
    simp only [vcomp, hfu, hfv, Option.map_some'] at hiff
    constructor
    · intro h2
      exact hiff.mp (by rw [h2])
    · intro h2
      exact Option.some.inj (hiff.mpr h2)
  · intro v hv
    have hfind : vfind ns3 v.id = some v := vfind_of_mem_nodup hnodup3 hv
    have hviso3 : viso ns3 v.id = some v.isolate := by
      simp [viso, hfind]
    have hviso2 : viso nodes2 v.id = some v.isolate := by
      rw [← sameShape_viso hshape3]
      exact hviso3
    constructor
    · intro hiso
      by_contra hno
      push_neg at hno
      -- v.id is in neither endpoint list, so both passes left it isolated
      have hnotsrc : v.id ∉ insertionDedup [] (links.map
          (fun l => l.source)) := by
        intro hmem
        rcases (mem_insertionDedup _ [] _).mp hmem with hh | hh
        · exact absurd hh (List.not_mem_nil _)
        · obtain ⟨e, he, hee⟩ := List.mem_map.mp hh
          exact (hno e he).1 hee
      have hnottgt : v.id ∉ insertionDedup [] (links.map
          (fun l => l.target)) := by
        intro hmem
        rcases (mem_insertionDedup _ [] _).mp hmem with hh | hh
        · exact absurd hh (List.not_mem_nil _)
        · obtain ⟨e, he, hee⟩ := List.mem_map.mp hh
          exact (hno e he).2 hee
      have h0 : viso nodes0 v.id = some true := by
        have hmem : v.id ∈ nodes0.map (fun w => w.id) := by
          rw [← hids3]
          exact List.mem_map.mpr ⟨v, hv, rfl⟩
        obtain ⟨w, hw⟩ := Option.isSome_iff_exists.mp
          (mem_ids_iff_vfind_isSome.mp hmem)
        have hw' : vfind nodes0 v.id = some w := hw
        have := (hpred0 w (List.mem_of_find?_eq_some hw)).2
        simp [viso, hw', this]
      rw [hout2 _ hnottgt, hout1 _ hnotsrc, h0] at hviso2
      rw [hiso] at hviso2
      exact Bool.noConfusion (Option.some.inj hviso2)
    · intro hinc
      obtain ⟨e, he, hee⟩ := hinc
      rcases hee with hee | hee
      · by_cases htgt : v.id ∈ insertionDedup [] (links.map
            (fun l => l.target))
        · have := hin2 _ htgt
          rw [hviso2] at this
          exact Option.some.inj this
        · have hsrcmem : v.id ∈ insertionDedup [] (links.map
              (fun l => l.source)) :=
            (mem_insertionDedup _ [] _).mpr
              (Or.inr (List.mem_map.mpr ⟨e, he, hee⟩))
          have := hin1 _ hsrcmem
          rw [hout2 _ htgt, this] at hviso2
          exact (Option.some.inj hviso2).symm
      · have htgtmem : v.id ∈ insertionDedup [] (links.map
            (fun l => l.target)) :=
          (mem_insertionDedup _ [] _).mpr
            (Or.inr (List.mem_map.mpr ⟨e, he, hee⟩))
        have := hin2 _ htgtmem
        rw [hviso2] at this
        exact Option.some.inj this

theorem buildGraph_error_spec (st : LinkState)
    (h : ¬ AllTargetsKnown st) :
    buildGraph st = Except.error didntFindNode := by
  cases hbl : buildNodesLinks st.fileLinkDatabase ([], []) with
  | mk nodes0 links =>
  have hlinks : links = (buildNodesLinks st.fileLinkDatabase ([], [])).2 := by
    rw [hbl]
  have hnodes0 : nodes0 = (buildNodesLinks st.fileLinkDatabase ([], [])).1 := by
    rw [hbl]
  have hids0 : ∀ m, m ∈ nodes0.map (fun v => v.id)
      ↔ m ∈ st.fileLinkDatabase.map (fun p => p.1) := by
    intro m
    rw [hnodes0]
    exact graph_nodes0_ids
  have hsrc_keys : ∀ e ∈ links, e.source
      ∈ st.fileLinkDatabase.map (fun p => p.1) := by
    intro e he
    obtain ⟨p, hp, t, _, hee⟩ := mem_graph_links.mp (hlinks ▸ he)
    subst hee
    exact List.mem_map.mpr ⟨p, hp, rfl⟩
  obtain ⟨nodes1, heq1, hcore1, _, _⟩ :=
    markConnected_ok (insertionDedup [] (links.map (fun l => l.source)))
      nodes0
      (fun x hx => by
        rcases (mem_insertionDedup _ [] x).mp hx with hh | hh
        · exact absurd hh (List.not_mem_nil x)
        · obtain ⟨e, he, hee⟩ := List.mem_map.mp hh
          exact (hids0 x).mpr (hee ▸ hsrc_keys e he))
  have hids1 : nodes1.map (fun v => v.id) = nodes0.map (fun v => v.id) :=
    (sameCore_ids hcore1).symm
  -- the dangling target defeats the second pass
  have hdangle : ∃ x ∈ insertionDedup [] (links.map (fun l => l.target)),
      x ∉ nodes1.map (fun v => v.id) := by
    simp only [AllTargetsKnown, not_forall] at h
    obtain ⟨p, hp, t, ht, hhas⟩ := h
    refine ⟨t, ?_, ?_⟩
    · refine (mem_insertionDedup _ [] t).mpr (Or.inr ?_)
      refine List.mem_map.mpr ⟨{ source := p.1, target := t, weight := 1 },
        ?_, rfl⟩
      rw [hlinks]
      exact mem_graph_links.mpr ⟨p, hp, t, ht, rfl⟩
    · rw [hids1]
      intro hmem
      exact hhas (mapHas_iff_mem_keys.mpr ((hids0 t).mp hmem))
  have heq2 := markConnected_error _ nodes1 hdangle
  simp only [buildGraph, hbl, bind, Except.bind, heq1, heq2]

/-- Everything `buildGraph` guarantees about a graph it returns. -/
theorem buildGraph_ok_inv {st : LinkState} {g : LinkGraph}
    (h : buildGraph st = Except.ok g) :
    (g.nodes.map (fun v => v.id)).Nodup
    ∧ (∀ m, m ∈ g.nodes.map (fun v => v.id)
        ↔ m ∈ st.fileLinkDatabase.map (fun p => p.1))
    ∧ AllTargetsKnown st
    ∧ g.links = (buildNodesLinks st.fileLinkDatabase ([], [])).2
    ∧ (∀ v ∈ g.nodes, v.component ≠ NONE_COMPONENT)
    ∧ (∀ u ∈ g.nodes, ∀ v ∈ g.nodes,
        (u.component = v.component ↔ Reach g.links u.id v.id))
    ∧ (∀ v ∈ g.nodes,
        (v.isolate = false
          ↔ ∃ e ∈ g.links, e.source = v.id ∨ e.target = v.id)) := by
  by_cases hk : AllTargetsKnown st
  · obtain ⟨g', hok, h1, h2, h3, h4, h5, h6⟩ := buildGraph_ok_spec st hk
    rw [h] at hok
    obtain rfl := Except.ok.inj hok
    exact ⟨h2, h3, hk, h1, h4, h5, h6⟩
  · have herr := buildGraph_error_spec st hk
    rw [h] at herr
    exact absurd herr (by simp)

end Zettlr

namespace Zettlr

/-! ### Concrete states used in counterexamples and witnesses -/

end Zettlr

namespace Zettlr

/-! ### The claims -/

/-- C1, as written, is false on the code: `buildGraph` never adds a vertex
lazily for a target that was not itself reported.  On the state whose only
report is `a.md -> b.md` it aborts with the internal error instead of
returning a graph. -/
theorem buildGraph_lazy_target_counterexample :
    buildGraph
        (report exampleResolver emptyState ("a.md") ([("b.md")]) none)
      = Except.error didntFindNode := rfl

/-- C1 (amended): whenever `buildGraph` returns a graph, every edge's
source and target identifier has a corresponding vertex in `nodes`; a
target that occurs only as an edge endpoint is never added lazily —
`buildGraph` aborts with the internal error `Didnt find node` instead. -/
theorem buildGraph_endpoints_have_vertices (st : LinkState) (g : LinkGraph)
    (h : buildGraph st = Except.ok g) :
    ∀ e ∈ g.links, (∃ v ∈ g.nodes, v.id = e.source)
      ∧ (∃ v ∈ g.nodes, v.id = e.target) := by
  obtain ⟨_, hids, hknown, hlinks, _, _, _⟩ := buildGraph_ok_inv h
  intro e he
  rw [hlinks] at he
  obtain ⟨p, hp, t, ht, hee⟩ := mem_graph_links.mp he
  subst hee
  constructor
  · obtain ⟨v, hv, hvid⟩ := List.mem_map.mp
      ((hids p.1).mpr (List.mem_map.mpr ⟨p, hp, rfl⟩))
    exact ⟨v, hv, hvid⟩
  · obtain ⟨v, hv, hvid⟩ := List.mem_map.mp
      ((hids t).mpr (mapHas_iff_mem_keys.mp (hknown p hp t ht)))
    exact ⟨v, hv, hvid⟩

theorem buildGraph_endpoints_have_vertices_witness :
    ∃ g, buildGraph scenarioDFixedState = Except.ok g
      ∧ ∀ e ∈ g.links, (∃ v ∈ g.nodes, v.id = e.source)
        ∧ (∃ v ∈ g.nodes, v.id = e.target) := by
  obtain ⟨g, hg⟩ : ∃ g, buildGraph scenarioDFixedState = Except.ok g :=
    ⟨_, rfl⟩
  exact ⟨g, hg, buildGraph_endpoints_have_vertices scenarioDFixedState g hg⟩

/-- C2: `buildGraph` never produces any error other than the internal
`Didnt find node`, and it produces that error exactly when some resolved
outbound target is not itself a byPath key (and hence has no vertex). -/
theorem buildGraph_internal_error_iff (st : LinkState) :
    (buildGraph st = Except.error didntFindNode
      ∨ ∃ g, buildGraph st = Except.ok g)
    ∧ (buildGraph st = Except.error didntFindNode
        ↔ ∃ p ∈ st.fileLinkDatabase, ∃ t ∈ p.2,
            mapHas st.fileLinkDatabase t = false) := by
  by_cases hk : AllTargetsKnown st
  · obtain ⟨g, hok, _⟩ := buildGraph_ok_spec st hk
    refine ⟨Or.inr ⟨g, hok⟩, ?_, ?_⟩
    · intro herr
      rw [hok] at herr
      exact absurd herr (by simp)
    · rintro ⟨p, hp, t, ht, hhas⟩
      rw [hk p hp t ht] at hhas
      exact absurd hhas (by simp)
  · have herr := buildGraph_error_spec st hk
    refine ⟨Or.inl herr, fun _ => ?_, fun _ => herr⟩
    simp only [AllTargetsKnown, not_forall] at hk
    obtain ⟨p, hp, t, ht, hhas⟩ := hk
    exact ⟨p, hp, t, ht, by simpa using hhas⟩

theorem buildGraph_internal_error_iff_witness :
    buildGraph scenarioDState = Except.error didntFindNode :=
  (buildGraph_internal_error_iff scenarioDState).2.mpr (by decide)

/-- C3, as written, is false on the code: after `report("a.md", ["b.md"])`
and `report("c.md", ["b.md"])` alone, `b.md` has no vertex, so `buildGraph`
aborts with the internal error instead of yielding a graph. -/
theorem scenarioD_as_written_counterexample :
    buildGraph scenarioDState = Except.error didntFindNode := by
  rfl

/-- C3 (amended): with the bridge file additionally reported
(`report("b.md", [])`), the same two reports produce a graph whose three
nodes `a.md`, `c.md`, `b.md` all carry one and the same component label. -/
theorem scenarioD_bridged_single_component :
    ∃ g, buildGraph scenarioDFixedState = Except.ok g
      ∧ g.nodes.map (fun v => v.id) = [("a.md"), ("c.md"), ("b.md")]
      ∧ g.nodes.map (fun v => v.component)
        = [componentName 1, componentName 1, componentName 1]
      ∧ g.components = [componentName 1] :=
  ⟨_, rfl, rfl, rfl, rfl⟩

/-- C4: the labels assigned on a graph that `buildGraph` (whose labeling
step ran to completion) returns form a true partition: every node carries
exactly one non-sentinel component label, and two nodes carry the same
label exactly when an undirected path of edges connects them. -/
theorem buildGraph_component_partition (st : LinkState) (g : LinkGraph)
    (h : buildGraph st = Except.ok g) :
    (∀ v ∈ g.nodes, v.component ≠ NONE_COMPONENT)
    ∧ (∀ u ∈ g.nodes, ∀ v ∈ g.nodes,
        (u.component = v.component ↔ Reach g.links u.id v.id)) := by
  obtain ⟨_, _, _, _, h5, h6, _⟩ := buildGraph_ok_inv h
  exact ⟨h5, h6⟩

theorem buildGraph_component_partition_witness :
    ∃ g, buildGraph isolateState = Except.ok g
      ∧ ((∀ v ∈ g.nodes, v.component ≠ NONE_COMPONENT)
        ∧ (∀ u ∈ g.nodes, ∀ v ∈ g.nodes,
            (u.component = v.component ↔ Reach g.links u.id v.id))) := by
  obtain ⟨g, hg⟩ : ∃ g, buildGraph isolateState = Except.ok g := ⟨_, rfl⟩
  exact ⟨g, hg, buildGraph_component_partition isolateState g hg⟩

/-- C5: in a graph returned by `buildGraph`, a node's isolate flag is
`false` exactly when its id occurs as the source or the target of some
edge; a node with no incident edge keeps `isolate = true` and is the sole
member of its component. -/
theorem buildGraph_isolate_iff_incident (st : LinkState) (g : LinkGraph)
    (h : buildGraph st = Except.ok g) :
    ∀ v ∈ g.nodes,
      ((v.isolate = false)
        ↔ ∃ e ∈ g.links, e.source = v.id ∨ e.target = v.id)
      ∧ (v.isolate = true →
          ∀ u ∈ g.nodes, u.component = v.component → u = v) := by
  obtain ⟨hnodup, _, _, _, _, h6, h7⟩ := buildGraph_ok_inv h
  intro v hv
  refine ⟨h7 v hv, ?_⟩
  intro hiso u hu hcomp
  have hreach : Reach g.links u.id v.id := (h6 u hu v hv).mp hcomp
  by_cases hid : u.id = v.id
  · have h1 := vfind_of_mem_nodup hnodup hu
    have h2 := vfind_of_mem_nodup hnodup hv
    rw [hid] at h1
    rw [h1] at h2
    exact Option.some.inj h2
  · obtain ⟨e, he, hee⟩ := reach_ne_incident hreach hid
    have : v.isolate = false := (h7 v hv).mpr ⟨e, he, hee⟩
    rw [hiso] at this
    exact absurd this (by simp)

theorem buildGraph_isolate_iff_incident_witness :
    ∃ g, buildGraph isolateState = Except.ok g
      ∧ ∀ v ∈ g.nodes,
        ((v.isolate = false)
          ↔ ∃ e ∈ g.links, e.source = v.id ∨ e.target = v.id)
        ∧ (v.isolate = true →
            ∀ u ∈ g.nodes, u.component = v.component → u = v) := by
  obtain ⟨g, hg⟩ : ∃ g, buildGraph isolateState = Except.ok g := ⟨_, rfl⟩
  exact ⟨g, hg, buildGraph_isolate_iff_incident isolateState g hg⟩

/-- C6: after `report`, the byPath entry for the source equals the raw
token list mapped through the resolver with the failures dropped (order
and duplicates preserved), replacing any prior entry; with a present,
non-empty source ID the same sequence also replaces the byID entry. -/
theorem report_stores_resolved_links (findExact : String → Option String)
    (st : LinkState) (sourcePath : String) (outboundLinks : List String)
    (sourceID : Option String) :
    mapGet (report findExact st sourcePath outboundLinks
        sourceID).fileLinkDatabase sourcePath
      = some (outboundLinks.filterMap findExact)
    ∧ (∀ i, sourceID = some i → i ≠ "" →
        mapGet (report findExact st sourcePath outboundLinks
            sourceID).idLinkDatabase i
          = some (outboundLinks.filterMap findExact)) := by
  constructor
  · simp only [report]
    rw [resolveLinks_eq_filterMap, List.nil_append]
    exact mapGet_mapSet_self _ _ _
  · intro i hi hne
    subst hi
    simp only [report, Option.some.injEq, hne, if_false]
    rw [resolveLinks_eq_filterMap, List.nil_append]
    exact mapGet_mapSet_self _ _ _

theorem report_stores_resolved_links_witness :
    mapGet (report exampleResolver emptyState ("a.md")
        ([("b.md"), ("missing.md"), ("b.md")])
        (some ("id1"))).fileLinkDatabase ("a.md")
      = some ([("b.md"), ("b.md")])
    ∧ mapGet (report exampleResolver emptyState ("a.md")
        ([("b.md"), ("missing.md"), ("b.md")])
        (some ("id1"))).idLinkDatabase ("id1")
      = some ([("b.md"), ("b.md")]) := by
  have h := report_stores_resolved_links exampleResolver emptyState
    ("a.md") ([("b.md"), ("missing.md"), ("b.md")]) (some ("id1"))
  exact ⟨h.1.trans (by rfl), (h.2 ("id1") rfl (by decide)).trans (by rfl)⟩

/-- C7: calling `report` twice in a row with identical arguments and the
same resolver leaves the index state exactly as after the first call. -/
theorem report_idempotent (findExact : String → Option String)
    (st : LinkState) (sourcePath : String) (outboundLinks : List String)
    (sourceID : Option String) :
    report findExact
        (report findExact st sourcePath outboundLinks sourceID)
        sourcePath outboundLinks sourceID
      = report findExact st sourcePath outboundLinks sourceID := by
  cases sourceID with
  | none => simp [report, mapSet_idem]
  | some i =>
    by_cases hi : i = ""
    · subst hi
      simp [report, mapSet_idem]
    · simp [report, hi, mapSet_idem]

/-- C8: a `remove` immediately following a `report` of the same source path
(and ID) leaves `retrieveOutbound` empty, and a `remove` whose path and ID
are absent from the index leaves the state unchanged and signals no
error. -/
theorem remove_after_report_and_absent_noop
    (findExact : String → Option String) (st st2 : LinkState)
    (sourcePath p2 : String) (outboundLinks : List String)
    (sourceID sid2 : Option String)
    (hp : mapHas st2.fileLinkDatabase p2 = false)
    (hi : ∀ i, sid2 = some i → i ≠ "" →
      mapHas st2.idLinkDatabase i = false) :
    retrieveOutbound
        (remove (report findExact st sourcePath outboundLinks sourceID)
          sourcePath sourceID) sourcePath = []
    ∧ remove st2 p2 sid2 = st2 := by
  constructor
  · have hhas : mapHas (report findExact st sourcePath outboundLinks
        sourceID).fileLinkDatabase sourcePath = true := by
      simp only [report]
      exact mapHas_mapSet_self _ _ _
    simp only [retrieveOutbound, remove, hhas, if_true]
    rw [mapGet_mapDelete_self]
    rfl
  · cases sid2 with
    | none =>
      simp [remove, hp]
    | some i =>
      by_cases hie : i = ""
      · subst hie
        simp only [remove, hp, Bool.false_eq_true, if_false,
          Option.some.injEq, if_pos]
      · have := hi i rfl hie
        simp only [remove, hp, this, Bool.false_eq_true, if_false,
          Option.some.injEq, hie]

theorem remove_after_report_and_absent_noop_witness :
    retrieveOutbound
        (remove (report exampleResolver emptyState ("a.md") ([("b.md")])
          (some ("id1"))) ("a.md") (some ("id1"))) ("a.md") = []
    ∧ remove emptyState ("x.md") (some ("idx")) = emptyState := by
  refine remove_after_report_and_absent_noop exampleResolver emptyState
    emptyState ("a.md") ("x.md") ([("b.md")]) (some ("id1"))
    (some ("idx")) (by decide) ?_
  intro i hi hne
  injection hi with h
  subst h
  decide

/-- C9: reporting two distinct paths under the same non-empty ID makes the
later report win the byID entry, while the first path's byPath entry stays
untouched. -/
theorem report_same_id_last_wins (findExact : String → Option String)
    (st : LinkState) (p1 p2 : String) (ls1 ls2 : List String) (i : String)
    (hne : p1 ≠ p2) (hi : i ≠ "") :
    mapGet (report findExact (report findExact st p1 ls1 (some i)) p2 ls2
        (some i)).idLinkDatabase i = some (ls2.filterMap findExact)
    ∧ mapGet (report findExact (report findExact st p1 ls1 (some i)) p2 ls2
        (some i)).fileLinkDatabase p1 = some (ls1.filterMap findExact) := by
  constructor
  · simp only [report, Option.some.injEq, hi, if_false,
      resolveLinks_eq_filterMap, List.nil_append]
    exact mapGet_mapSet_self _ _ _
  · simp only [report, Option.some.injEq, hi, if_false,
      resolveLinks_eq_filterMap, List.nil_append]
    rw [mapGet_mapSet_ne _ _ hne]
    exact mapGet_mapSet_self _ _ _

theorem report_same_id_last_wins_witness :
    mapGet (report exampleResolver
        (report exampleResolver emptyState ("a.md") ([("b.md")])
          (some ("id1")))
        ("c.md") ([("d.md")]) (some ("id1"))).idLinkDatabase ("id1")
      = some ([("d.md")])
    ∧ mapGet (report exampleResolver
        (report exampleResolver emptyState ("a.md") ([("b.md")])
          (some ("id1")))
        ("c.md") ([("d.md")]) (some ("id1"))).fileLinkDatabase ("a.md")
      = some ([("b.md")]) := by
  have h := report_same_id_last_wins exampleResolver emptyState ("a.md")
    ("c.md") ([("b.md")]) ([("d.md")]) ("id1") (by decide) (by decide)
  exact ⟨h.1.trans (by rfl), h.2.trans (by rfl)⟩

/-- C10: `buildGraph`, `retrieveInbound` and `retrieveOutbound` leave the
two link databases exactly as they were: their bodies read the state but
contain no assignment to either field, so their state-transformer
embeddings return the incoming state unchanged. -/
theorem readers_leave_state_unchanged (st : LinkState) (p q : String) :
    (buildGraphCall st).2 = st
    ∧ (retrieveInboundCall st p).2 = st
    ∧ (retrieveOutboundCall st q).2 = st :=
  ⟨rfl, rfl, rfl⟩

end Zettlr
